import Mathlib

/-!
# Verification of the SongStringParser repository

Shallow embedding of the repository `ThijsBertram/SongStringParser`
(`src/songstring_parser/...`) into Lean 4, together with theorems settling
the frozen claims C1..C10 about the natural-language specification.

Python strings are modelled as `List Char` (wrapped back into `String` at the
public boundaries).  Python regular expressions are hand-compiled into
dedicated recursive matchers that mirror the leftmost-match, greedy /
lazy-with-backtracking semantics of the `re` module for the concrete patterns
appearing in the source.  The `re` character class `\s` and `str.strip()` are
modelled by the ASCII whitespace set (all inputs evaluated in this development
are ASCII).  `unicodedata.normalize("NFKC", s)` is modelled as the identity:
every string this development evaluates the normalizer on is NFKC-invariant
(plain ASCII), so the model agrees with CPython on each of them.
-/

namespace SSP

/-- Python `\s` / `str.strip()` whitespace, ASCII fragment:
space, tab, newline, carriage return, vertical tab, form feed. -/
def isWS (c : Char) : Bool :=
  c == ' ' || c == '\t' || c == '\n' || c == '\r' || c == '\x0b' || c == '\x0c'

/-- ASCII decimal digit (`\d` on the ASCII fragment). -/
def isDigitC (c : Char) : Bool := '0' ≤ c && c ≤ '9'

/-- ASCII letter. -/
def isAlphaC (c : Char) : Bool :=
  ('a' ≤ c && c ≤ 'z') || ('A' ≤ c && c ≤ 'Z')

/-- Python `\w` word character, ASCII fragment: letter, digit or underscore. -/
def isWordC (c : Char) : Bool := isAlphaC c || isDigitC c || c == '_'

/-- ASCII lower-casing, as `str.lower()` acts on the ASCII fragment. -/
def lowerC (c : Char) : Char :=
  if 'A' ≤ c && c ≤ 'Z' then Char.ofNat (c.toNat + 32) else c

/-- ASCII upper-casing, as `str.upper()` acts on the ASCII fragment. -/
def upperC (c : Char) : Char :=
  if 'a' ≤ c && c ≤ 'z' then Char.ofNat (c.toNat - 32) else c

/-- Case-insensitive character comparison (`re.IGNORECASE`, ASCII fragment). -/
def eqCI (a b : Char) : Bool := lowerC a == lowerC b

/-- Longest prefix of characters satisfying `p`, paired with the rest. -/
def spanP (p : Char → Bool) : List Char → List Char × List Char
  | [] => ([], [])
  | c :: cs =>
    if p c then
      let (r, rest) := spanP p cs
      (c :: r, rest)
    else ([], c :: cs)

/-- `str.lstrip()` on the ASCII fragment. -/
def lstripWS (cs : List Char) : List Char := (spanP isWS cs).2

/-- `str.rstrip()` on the ASCII fragment. -/
def rstripWS (cs : List Char) : List Char := (lstripWS cs.reverse).reverse

/-- `str.strip()` on the ASCII fragment. -/
def stripWS (cs : List Char) : List Char := rstripWS (lstripWS cs)

/-- `str.strip(chars)` / `str.rstrip(chars)` generalisation: strip characters
from the given set off both ends (used for `_tidy_name` and `rstrip("/\\")`). -/
def lstripSet (set : List Char) (cs : List Char) : List Char :=
  (spanP (fun c => set.contains c) cs).2

def rstripSet (set : List Char) (cs : List Char) : List Char :=
  (lstripSet set cs.reverse).reverse

def stripSet (set : List Char) (cs : List Char) : List Char :=
  rstripSet set (lstripSet set cs)

/-- Case-insensitive literal match at the head of the input: returns the rest
of the input after the literal when the whole literal is present. -/
def dropLitCI : List Char → List Char → Option (List Char)
  | [], cs => some cs
  | _ :: _, [] => none
  | w :: ws, c :: cs => if eqCI w c then dropLitCI ws cs else none

/-- Case-sensitive substring test (Python `needle in haystack`). -/
def containsSub (needle : List Char) : List Char → Bool
  | [] => needle.isEmpty
  | c :: cs => (needle.isPrefixOf (c :: cs)) || containsSub needle (c :: cs |>.tail)

/-- Python `str.split()` with no argument: split on whitespace runs,
dropping empty pieces. -/
def pySplitAux : Nat → List Char → List (List Char)
  | 0, _ => []
  | _, [] => []
  | fuel + 1, cs =>
    let cs := lstripWS cs
    match cs with
    | [] => []
    | c :: rest =>
      let (w, rest') := spanP (fun d => !isWS d) rest
      (c :: w) :: pySplitAux fuel rest'

def pySplit (cs : List Char) : List (List Char) := pySplitAux cs.length cs

/-- Python `str.capitalize()` on the ASCII fragment: first character
upper-cased, every other character lower-cased. -/
def pyCapitalize : List Char → List Char
  | [] => []
  | c :: cs => upperC c :: cs.map lowerC

/-- `" ".join(w.capitalize() for w in v.split())` from the classifier code. -/
def capitalizeWords (cs : List Char) : List Char :=
  match (pySplit cs).map pyCapitalize with
  | [] => []
  | w :: ws => ws.foldl (fun acc x => acc ++ [' '] ++ x) w

/-!
## Step 2 — `steps/step2_normalize.py`, `normalize_separators_whitespace`

Each `re.sub` of the source is compiled to a left-to-right scanner with
Python's leftmost-match, non-overlapping replacement semantics.  A scanner
consumes at least one character per step, so `cs.length` is always enough
fuel; the fuel-exhausted branches are unreachable.
-/

/-- Characters of the class `[\t\r\f\v]` (note: no newline, no space). -/
def isTabClass (c : Char) : Bool :=
  c == '\t' || c == '\r' || c == '\x0c' || c == '\x0b'

/-- `re.sub(r'[\t\r\f\v]+', ' ', s)`. -/
def subTabClassAux : Nat → List Char → List Char
  | 0, cs => cs
  | fuel + 1, cs =>
    match cs with
    | [] => []
    | c :: rest =>
      if isTabClass c then
        let (_, rest') := spanP isTabClass rest
        ' ' :: subTabClassAux fuel rest'
      else
        c :: subTabClassAux fuel rest

def subTabClass (cs : List Char) : List Char := subTabClassAux cs.length cs

/-- `re.sub(r'\s*X\s*', ' X ', s)` for a literal separator `X`
(used with `~` and `|`).  At a match position the leading `\s*` must reach
the separator exactly (whitespace cannot match the separator, so no shorter
backtracking alternative exists). -/
def subPadAux (sep : Char) : Nat → List Char → List Char
  | 0, cs => cs
  | fuel + 1, cs =>
    match cs with
    | [] => []
    | c :: rest =>
      let (_, r1) := spanP isWS (c :: rest)
      match r1 with
      | x :: r2 =>
        if x == sep then
          let (_, r3) := spanP isWS r2
          ' ' :: sep :: ' ' :: subPadAux sep fuel r3
        else
          c :: subPadAux sep fuel rest
      | [] => c :: subPadAux sep fuel rest
  -- `w1` only witnesses the greedy `\s*`; its characters are consumed
  -- by the match when the separator follows them.

def subPad (sep : Char) (cs : List Char) : List Char := subPadAux sep cs.length cs

/-- `re.sub(r'(?<=\S)\s*B\s*', ' B', s)` for an opening bracket `B`.
`prev` is the original character immediately before the scan position
(`none` at the start of the string); the lookbehind consumes nothing. -/
def subOpenPadAux (br : Char) : Nat → Option Char → List Char → List Char
  | 0, _, cs => cs
  | fuel + 1, prev, cs =>
    match cs with
    | [] => []
    | c :: rest =>
      let prevOk := match prev with
        | some p => !isWS p
        | none => false
      let (_, r1) := spanP isWS (c :: rest)
      match r1 with
      | x :: r2 =>
        if prevOk && x == br then
          let (w2, r3) := spanP isWS r2
          let lastConsumed := match w2.getLast? with
            | some l => l
            | none => br
          ' ' :: br :: subOpenPadAux br fuel (some lastConsumed) r3
        else
          c :: subOpenPadAux br fuel (some c) rest
      | [] => c :: subOpenPadAux br fuel (some c) rest
  -- `w1` witnesses the greedy `\s*`; a shorter `\s*` would put the bracket
  -- test on a whitespace character, so only the full run can match.

def subOpenPad (br : Char) (cs : List Char) : List Char :=
  subOpenPadAux br cs.length none cs

/-- `re.sub(r'\s+B', 'B', s)` for a closing bracket `B`. -/
def subCloseTightAux (br : Char) : Nat → List Char → List Char
  | 0, cs => cs
  | fuel + 1, cs =>
    match cs with
    | [] => []
    | c :: rest =>
      if isWS c then
        let (_, r1) := spanP isWS rest
        match r1 with
        | x :: r2 =>
          if x == br then br :: subCloseTightAux br fuel r2
          else c :: subCloseTightAux br fuel rest
        | [] => c :: subCloseTightAux br fuel rest
      else
        c :: subCloseTightAux br fuel rest

def subCloseTight (br : Char) (cs : List Char) : List Char :=
  subCloseTightAux br cs.length cs

/-- `re.sub(r' {2,}', ' ', s)` — collapse runs of two or more literal
spaces (only `' '`, not other whitespace) to a single space. -/
def collapse2Aux : Nat → List Char → List Char
  | 0, cs => cs
  | fuel + 1, cs =>
    match cs with
    | [] => []
    | c :: rest =>
      match rest with
      | d :: _ =>
        if c == ' ' && d == ' ' then
          let (_, rest') := spanP (fun e => e == ' ') rest
          ' ' :: collapse2Aux fuel rest'
        else
          c :: collapse2Aux fuel rest
      | [] => [c]

def collapse2 (cs : List Char) : List Char := collapse2Aux cs.length cs

/-- `re.sub(r'\s-+\s', ' - ', s)` — one whitespace character, a run of
hyphens, one whitespace character. -/
def subHyphenRunAux : Nat → List Char → List Char
  | 0, cs => cs
  | fuel + 1, cs =>
    match cs with
    | [] => []
    | c :: rest =>
      if isWS c then
        let (h, r1) := spanP (fun e => e == '-') rest
        match h, r1 with
        | _ :: _, x :: r2 =>
          if isWS x then ' ' :: '-' :: ' ' :: subHyphenRunAux fuel r2
          else c :: subHyphenRunAux fuel rest
        | _, _ => c :: subHyphenRunAux fuel rest
      else
        c :: subHyphenRunAux fuel rest

def subHyphenRun (cs : List Char) : List Char := subHyphenRunAux cs.length cs

/-- `re.sub(r'(?<=\s)-(?=\S)', ' - ', s)`: hyphen preceded by whitespace
(lookbehind on the original string) and followed by non-whitespace
(lookahead, not consumed). -/
def subHyphenAAux : Nat → Option Char → List Char → List Char
  | 0, _, cs => cs
  | fuel + 1, prev, cs =>
    match cs with
    | [] => []
    | c :: rest =>
      let prevWS := match prev with
        | some p => isWS p
        | none => false
      let nextNonWS := match rest with
        | x :: _ => !isWS x
        | [] => false
      if c == '-' && prevWS && nextNonWS then
        ' ' :: '-' :: ' ' :: subHyphenAAux fuel (some '-') rest
      else
        c :: subHyphenAAux fuel (some c) rest

def subHyphenA (cs : List Char) : List Char := subHyphenAAux cs.length none cs

/-- `re.sub(r'(?<=\S)-(?=\s)', ' - ', s)`. -/
def subHyphenBAux : Nat → Option Char → List Char → List Char
  | 0, _, cs => cs
  | fuel + 1, prev, cs =>
    match cs with
    | [] => []
    | c :: rest =>
      let prevNonWS := match prev with
        | some p => !isWS p
        | none => false
      let nextWS := match rest with
        | x :: _ => isWS x
        | [] => false
      if c == '-' && prevNonWS && nextWS then
        ' ' :: '-' :: ' ' :: subHyphenBAux fuel (some '-') rest
      else
        c :: subHyphenBAux fuel (some c) rest

def subHyphenB (cs : List Char) : List Char := subHyphenBAux cs.length none cs

/-- The three closing brackets `)]}`. -/
def isCloserBr (c : Char) : Bool := c == ')' || c == ']' || c == '\x7d'

/-- The three opening brackets `([{`. -/
def isOpenerBr (c : Char) : Bool := c == '(' || c == '[' || c == '\x7b'

/-- `re.sub(r'\s+([)\]\}])', r'\1', s)`. -/
def subWsCloserAux : Nat → List Char → List Char
  | 0, cs => cs
  | fuel + 1, cs =>
    match cs with
    | [] => []
    | c :: rest =>
      if isWS c then
        let (_, r1) := spanP isWS rest
        match r1 with
        | x :: r2 =>
          if isCloserBr x then x :: subWsCloserAux fuel r2
          else c :: subWsCloserAux fuel rest
        | [] => c :: subWsCloserAux fuel rest
      else
        c :: subWsCloserAux fuel rest

def subWsCloser (cs : List Char) : List Char := subWsCloserAux cs.length cs

/-- `re.sub(r'([(\[\{])\s+', r'\1', s)`. -/
def subOpenerWsAux : Nat → List Char → List Char
  | 0, cs => cs
  | fuel + 1, cs =>
    match cs with
    | [] => []
    | c :: rest =>
      if isOpenerBr c then
        let (w, r1) := spanP isWS rest
        match w with
        | _ :: _ => c :: subOpenerWsAux fuel r1
        | [] => c :: subOpenerWsAux fuel rest
      else
        c :: subOpenerWsAux fuel rest

def subOpenerWs (cs : List Char) : List Char := subOpenerWsAux cs.length cs

/-- `ParserConfig.dashes_to_hyphen`: the six unicode dash code points the
normalizer maps to an ASCII hyphen via `str.translate`. -/
def dashesToHyphen : List Char :=
  ['‐', '‑', '‒', '–', '—', '―']

def dashTranslate (cs : List Char) : List Char :=
  cs.map fun c => if dashesToHyphen.contains c then '-' else c

/-- `steps/step2_normalize.py`, `normalize_separators_whitespace`.
The source's step numbers are kept as comments.  `unicodedata.normalize`
(NFKC) is modelled as the identity, see the module docstring. -/
def normalize_separators_whitespace (s : String) : String :=
  -- 1) NFKC (modelled as identity on the evaluated ASCII inputs)
  let cs := s.data
  -- 2) unicode dashes to ASCII '-'
  let cs := dashTranslate cs
  -- 3) [\t\r\f\v]+ -> ' '
  let cs := subTabClass cs
  -- 4) pad ~ and | with single spaces
  let cs := subPad '~' cs
  let cs := subPad '|' cs
  -- 5) bracket spacing
  let cs := subOpenPad '(' cs
  let cs := subOpenPad '[' cs
  let cs := subOpenPad '\x7b' cs
  let cs := subCloseTight ')' cs
  let cs := subCloseTight ']' cs
  let cs := subCloseTight '\x7d' cs
  -- 6) collapse double spaces
  let cs := collapse2 cs
  -- 7) canonicalize hyphen-as-separator
  let cs := subHyphenRun cs
  let cs := subHyphenA cs
  let cs := subHyphenB cs
  let cs := collapse2 cs
  -- 8) final tidy
  let cs := subWsCloser cs
  let cs := subOpenerWs cs
  let cs := collapse2 cs
  let cs := stripWS cs
  String.mk cs

/-!
## Step 1 — `steps/step1_strip_path_and_extension.py`, `strip_path_and_extension`

The function returns `(basename, primary_ext)` where the second component is
the Python value `False` for a falsy input, `None` when no known extension was
peeled, and the lower-cased extension string otherwise.  That heterogeneous
Python value is modelled by `ExtSlot`.
-/

/-- The second component of `strip_path_and_extension`'s result:
`False`, `None`, or an extension string. -/
inductive ExtSlot where
  | falseLit : ExtSlot
  | noneLit : ExtSlot
  | ext : String → ExtSlot
deriving DecidableEq, Repr

/-- `ParserConfig.audio_extensions` after
`sorted({ext.lstrip(".").lower() ...})` in the source. -/
def extsCore : List (List Char) :=
  ["aac".data, "aiff".data, "alac".data, "flac".data, "m4a".data,
   "mp3".data, "ogg".data, "wav".data, "wma".data]

/-- `(?i)^[a-z]:[\\/]` — Windows drive prefix. -/
def winDriveTest (cs : List Char) : Bool :=
  match cs with
  | a :: b :: c :: _ => isAlphaC a && b == ':' && (c == '\\' || c == '/')
  | _ => false

def isSepC (c : Char) : Bool := c == '/' || c == '\\'

/-- `^(?:[\\/]{2})[^\\/]+[\\/][^\\/]+` — UNC path prefix.  The greedy
`[^\\/]+` runs are maximal; backtracking cannot help because the following
`[\\/]` never matches a non-separator character. -/
def uncTest (cs : List Char) : Bool :=
  match cs with
  | a :: b :: rest =>
    if isSepC a && isSepC b then
      let (r1, rest1) := spanP (fun c => !isSepC c) rest
      match r1, rest1 with
      | _ :: _, c :: rest2 =>
        if isSepC c then !(spanP (fun d => !isSepC d) rest2).1.isEmpty
        else false
      | _, _ => false
    else false
  | _ => false

/-- `(?i)^[a-z][a-z0-9+.\-]*://` — URL scheme prefix.  The class run is
maximal; `:` is not in the class, so no backtracking alternative exists. -/
def urlTest (cs : List Char) : Bool :=
  match cs with
  | a :: rest =>
    if isAlphaC a then
      let (_, rest1) := spanP
        (fun c => isAlphaC c || isDigitC c || c == '+' || c == '.' || c == '-') rest
      match rest1 with
      | ':' :: '/' :: '/' :: _ => true
      | _ => false
    else false
  | [] => false

/-- One position of `(?i)(?:^|[\\/])(cd|disc)\s*\d+\b`: the `cd`/`disc`
token, optional whitespace, a maximal digit run, and a word boundary after
the digits (shorter digit runs end between two digits, never at a word
boundary, so only the maximal run is relevant). -/
def cdDiscAt (cs : List Char) : Bool :=
  let tail := fun (r : List Char) =>
    let (w, r1) := spanP isWS r
    let (d, r2) := spanP isDigitC r1
    -- `\s*` is maximal: digits are not whitespace
    let _ := w
    !d.isEmpty &&
      (match r2 with
       | [] => true
       | c :: _ => !isWordC c)
  match dropLitCI "cd".data cs with
  | some r => if tail r then true else
    match dropLitCI "disc".data cs with
    | some r2 => tail r2
    | none => false
  | none =>
    match dropLitCI "disc".data cs with
    | some r2 => tail r2
    | none => false

/-- Search for `(?i)(?:^|[\\/])(cd|disc)\s*\d+\b` anywhere in the string. -/
def cdDiscSearchAux : Nat → Option Char → List Char → Bool
  | 0, _, _ => false
  | _, _, [] => false
  | fuel + 1, prev, c :: rest =>
    let anchorOk := match prev with
      | none => true
      | some p => isSepC p
    if anchorOk && cdDiscAt (c :: rest) then true
    else cdDiscSearchAux fuel (some c) rest

def cdDiscSearch (cs : List Char) : Bool := cdDiscSearchAux (cs.length + 1) none cs

/-- Index of the last character satisfying `p`, as `str.rfind` (‑1 coded as
`none`). -/
def rfindP (p : Char → Bool) (cs : List Char) : Option Nat :=
  (cs.enum.filter fun (_, c) => p c).getLast? |>.map (·.1)

/-- One extension-peel step: the regex
`re.search(r"\s*\.(alt1|...|altN)\s*$", working)` followed by
`working[:m.start()].rstrip()`.  A match must put the alternative directly
before the trailing whitespace run, so it is equivalent to: strip trailing
whitespace, check for a `.ext` suffix (case-insensitively, `ext` a known
extension), and cut it plus the whitespace run before the dot. -/
def extPeelStep (cs : List Char) : Option (List Char × List Char) :=
  let core := rstripWS cs
  match extsCore.find? (fun e =>
      decide (core.length ≥ e.length + 1) &&
      ((core.drop (core.length - e.length - 1)).take 1 == ['.']) &&
      ((core.drop (core.length - e.length)).map lowerC == e)) with
  | some e => some (rstripWS (core.take (core.length - e.length - 1)), e)
  | none => none

/-- The `while True` peel loop.  Every successful step strictly shortens the
working string, so `cs.length + 1` fuel is (provably) enough. -/
def extPeelLoop : Nat → List Char → Option (List Char) → List Char × Option (List Char)
  | 0, cs, primary => (cs, primary)
  | fuel + 1, cs, primary =>
    match extPeelStep cs with
    | none => (cs, primary)
    | some (cs', e) =>
      extPeelLoop fuel cs' (match primary with | none => some e | some p => some p)

/-- The path-handling half of `strip_path_and_extension`: the basename of a
non-empty input, after the forward-slash policy decision and the trailing
separator trim. -/
def pyBasename (cs : List Char) : List Char :=
  let hasBackslash := cs.contains '\\'
  let slashCount := (cs.filter isSepC).length
  let allowForward :=
    hasBackslash || winDriveTest cs || uncTest cs || urlTest cs ||
    cdDiscSearch cs || decide (slashCount ≥ 2)
  let sStripped := if allowForward || hasBackslash then rstripSet ['/', '\\'] cs else cs
  let lastBackslash := rfindP (fun c => c == '\\') sStripped
  let lastForward := if allowForward || hasBackslash
    then rfindP (fun c => c == '/') sStripped else none
  let cut : Option Nat := match lastBackslash, lastForward with
    | some a, some b => some (max a b)
    | some a, none => some a
    | none, some b => some b
    | none, none => none
  match cut with
  | some k => sStripped.drop (k + 1)
  | none => sStripped

/-- `steps/step1_strip_path_and_extension.py`, `strip_path_and_extension`
(with the default `ParserConfig.audio_extensions`). -/
def strip_path_and_extension (s : String) : String × ExtSlot :=
  if s.data.isEmpty then (s, ExtSlot.falseLit)
  else
    let basename := pyBasename s.data
    let (working, primary) := extPeelLoop (basename.length + 1) basename none
    (String.mk working,
     match primary with
     | none => ExtSlot.noneLit
     | some e => ExtSlot.ext (String.mk e))

/-!
## Step 3 — `steps/step3_albumprefix.py`, `_RX_PATTERNS` and `clean_album_prefix`

The four anchored patterns are hand-compiled with their backtracking
behaviour made explicit.  `matchSepReq`/`matchSepOpt` implement
`\s*[:\-._ ]+\s*` resp. `\s*[:\-._ ]*\s*`: the greedy leading `\s*` backs off
one whitespace character at a time until the separator-class run is
non-empty (a given-back whitespace character can itself start the separator
run only when it is a space, the single character in both classes).
-/

/-- The delimiter class `[:\-._ ]` of the prefix patterns. -/
def isDelimC (c : Char) : Bool :=
  c == ':' || c == '-' || c == '.' || c == '_' || c == ' '

/-- Largest `k ≤ w1` such that a separator-class run can start at offset `k`
of `cs` (`w1` = length of the maximal whitespace run).  Mirrors the regex
backtracking order of `\s*` from greedy downwards. -/
def sepBacktrack (cs : List Char) : Nat → Option Nat
  | 0 => match cs with
    | c :: _ => if isDelimC c then some 0 else none
    | [] => none
  | k + 1 =>
    match cs.drop (k + 1) with
    | c :: _ => if isDelimC c then some (k + 1) else sepBacktrack cs k
    | [] => sepBacktrack cs k

/-- `\s*[:\-._ ]+\s*` (matched greedily, with backtracking of the first
`\s*`): returns the consumed length, or `none`. -/
def matchSepReq (cs : List Char) : Option Nat :=
  let w1 := (spanP isWS cs).1.length
  match sepBacktrack cs w1 with
  | none => none
  | some k =>
    let (sep, rest) := spanP isDelimC (cs.drop k)
    let w2 := (spanP isWS rest).1.length
    some (k + sep.length + w2)

/-- `\s*[:\-._ ]*\s*`: always matches; greedy consumption. -/
def matchSepOpt (cs : List Char) : Nat :=
  let w1 := (spanP isWS cs).1.length
  let (sep, rest) := spanP isDelimC (cs.drop w1)
  let w2 := (spanP isWS rest).1.length
  w1 + sep.length + w2

/-- Greedy `\d{1,maxLen}` with backtracking: candidate digit counts in the
order the regex engine tries them (longest first). -/
def digitTries (maxLen : Nat) (cs : List Char) : List Nat :=
  let run := min maxLen (spanP isDigitC cs).1.length
  (List.range run).map (fun i => run - i)

/-- Decimal value of a digit list (`int(...)` on the captured group). -/
def digitsToNat (ds : List Char) : Nat :=
  ds.foldl (fun acc c => acc * 10 + (c.toNat - '0'.toNat)) 0

/-- Captures of one prefix pattern match: consumed length plus the
`disc`/`track`/`side` groups. -/
structure PrefixMatch where
  consumed : Nat
  disc : Option Nat := none
  track : Option Nat := none
  side : Option Char := none
deriving DecidableEq, Repr

/-- Backtracking of the optional track group of pattern 1,
`(?:\s*[:\-._ ]\s*(?P<track>\d{1,3}))?`: `k` runs from the full
whitespace run down to zero; at each offset the single separator-class
character, inner `\s*` and the 1–3 digit capture are attempted. -/
def rx1TrackTry (r1 : List Char) : Nat → Option (Nat × List Char)
  | 0 =>
    match r1 with
    | c :: rest' =>
      if isDelimC c then
        let w2 := (spanP isWS rest').1.length
        let ds2 := (spanP isDigitC (rest'.drop w2)).1
        if ds2.isEmpty then none
        else some (1 + w2 + min 3 ds2.length, ds2.take 3)
      else none
    | [] => none
  | k + 1 =>
    match r1.drop (k + 1) with
    | c :: rest' =>
      if isDelimC c then
        let w2 := (spanP isWS rest').1.length
        let ds2 := (spanP isDigitC (rest'.drop w2)).1
        if ds2.isEmpty then rx1TrackTry r1 k
        else some (k + 1 + 1 + w2 + min 3 ds2.length, ds2.take 3)
      else rx1TrackTry r1 k
    | [] => rx1TrackTry r1 k

/-- Pattern 1: `^(?:(?:CD|Disc|Disk)\s*(?P<disc>\d+))`
`(?:\s*[:\-._ ]\s*(?P<track>\d{1,3}))?` `\s*[:\-._ ]*\s*`.
The trailing separator part of this pattern is the all-optional
`matchSepOpt`, in contrast to patterns 2–4. -/
def rx1Match (cs : List Char) : Option PrefixMatch :=
  let tokenRest : Option (Nat × List Char) :=
    match dropLitCI "cd".data cs with
    | some r =>
      -- the regex alternation tries CD first; if its continuation fails the
      -- engine retries with Disc/Disk, which is relevant only when the
      -- digit run after the token is empty
      if (spanP isWS r).2.headD ' ' |> isDigitC then some (2, r) else
        match dropLitCI "disc".data cs with
        | some r2 => some (4, r2)
        | none => match dropLitCI "disk".data cs with
          | some r3 => some (4, r3)
          | none => some (2, r)
    | none =>
      match dropLitCI "disc".data cs with
      | some r2 => some (4, r2)
      | none => match dropLitCI "disk".data cs with
        | some r3 => some (4, r3)
        | none => none
  match tokenRest with
  | none => none
  | some (tok, r) =>
    let w := (spanP isWS r).1.length
    let (ds, r1) := spanP isDigitC (r.drop w)
    if ds.isEmpty then none
    else
      -- optional `(?:\s*[:\-._ ]\s*(?P<track>\d{1,3}))?`
      let optTrack : Option (Nat × List Char) :=
        rx1TrackTry r1 (spanP isWS r1).1.length
      let (trackLen, track) := match optTrack with
        | some (n, ds2) => (n, some (digitsToNat ds2))
        | none => (0, none)
      let afterTrack := r1.drop trackLen
      let tailLen := matchSepOpt afterTrack
      some { consumed := tok + w + ds.length + trackLen + tailLen
             disc := some (digitsToNat ds)
             track := track }

/-- Pattern 2: `^(?P<side>[A-D])\s*(?P<track>\d{1,2})\s*[:\-._ ]+\s*`. -/
def rx2Match (cs : List Char) : Option PrefixMatch :=
  match cs with
  | c :: rest =>
    if ('a' ≤ lowerC c && lowerC c ≤ 'd') then
      let w := (spanP isWS rest).1.length
      let ds := (spanP isDigitC (rest.drop w)).1
      if ds.isEmpty then none
      else
        -- `\d{1,2}` greedy with backtracking against the required separator
        let tryLen := fun (n : Nat) =>
          match matchSepReq (rest.drop (w + n)) with
          | some sl => some (1 + w + n + sl, digitsToNat (ds.take n))
          | none => none
        let cands := (digitTries 2 (rest.drop w)).filterMap tryLen
        match cands with
        | (n, t) :: _ => some { consumed := n, track := some t, side := some c }
        | [] => none
    else none
  | [] => none

/-- Pattern 3: `^(?P<disc>\d{1,2})\s*[xX]\s*(?P<track>\d{1,3})\s*[:\-._ ]+\s*`. -/
def rx3Match (cs : List Char) : Option PrefixMatch :=
  let ds1 := (spanP isDigitC cs).1
  if ds1.isEmpty then none
  else
    let tryD1 := fun (n1 : Nat) =>
      let r1 := cs.drop n1
      let w1 := (spanP isWS r1).1.length
      match r1.drop w1 with
      | x :: r2 =>
        if x == 'x' || x == 'X' then
          let w2 := (spanP isWS r2).1.length
          let ds2 := (spanP isDigitC (r2.drop w2)).1
          if ds2.isEmpty then none
          else
            let tryD2 := fun (n2 : Nat) =>
              match matchSepReq (r2.drop (w2 + n2)) with
              | some sl =>
                some (n1 + w1 + 1 + w2 + n2 + sl,
                      digitsToNat (ds1.take n1), digitsToNat (ds2.take n2))
              | none => none
            ((digitTries 3 (r2.drop w2)).filterMap tryD2).head?
        else none
      | [] => none
    match (digitTries 2 cs).filterMap tryD1 with
    | (n, d, t) :: _ => some { consumed := n, disc := some d, track := some t }
    | [] => none

/-- Pattern 4: `^(?P<track>\d{1,3})\s*[:\-._ ]+\s*`. -/
def rx4Match (cs : List Char) : Option PrefixMatch :=
  let ds := (spanP isDigitC cs).1
  if ds.isEmpty then none
  else
    let tryLen := fun (n : Nat) =>
      match matchSepReq (cs.drop n) with
      | some sl => some (n + sl, digitsToNat (ds.take n))
      | none => none
    match (digitTries 3 cs).filterMap tryLen with
    | (n, t) :: _ => some { consumed := n, track := some t }
    | [] => none

/-- The ordered pattern list of `_RX_PATTERNS`. -/
def rxPatterns : List (List Char → Option PrefixMatch) :=
  [rx1Match, rx2Match, rx3Match, rx4Match]

/-- Accumulated `info` dictionary of `clean_album_prefix`. -/
structure PrefixInfo where
  disc : Option Nat := none
  track : Option Nat := none
  side : Option Char := none
  passes : Nat := 0
deriving DecidableEq, Repr

/-- First-seen update of the info record from one pattern match. -/
def updateInfo (info : PrefixInfo) (m : PrefixMatch) : PrefixInfo :=
  { disc := match info.disc with
      | some d => some d
      | none => m.disc
    track := match info.track with
      | some t => some t
      | none => m.track
    side := match info.side with
      | some s => some s
      | none => m.side.map upperC
    passes := info.passes + 1 }

/-- One pass of the inner `for rx in _RX_PATTERNS` loop: first matching
pattern wins. -/
def onePass (cs : List Char) : Option (PrefixMatch) :=
  (rxPatterns.filterMap (fun rx => rx cs)).head?

/-- The bounded `for _ in range(max_passes)` loop. -/
def passLoop : Nat → List Char → PrefixInfo → List Char × PrefixInfo
  | 0, cs, info => (cs, info)
  | n + 1, cs, info =>
    match onePass cs with
    | none => (cs, info)
    | some m => passLoop n (lstripWS (cs.drop m.consumed)) (updateInfo info m)

/-- `steps/step3_albumprefix.py`, `clean_album_prefix`. -/
def clean_album_prefix (s : String) (maxPasses : Nat) : String × PrefixInfo :=
  if s.data.isEmpty then (s, {})
  else
    let (cs, info) := passLoop maxPasses (lstripWS s.data) {}
    (String.mk cs, info)


/-!
## Step 4 — configuration lists (`conf.py`)
-/

def FEAT_INDICATORS : List String :=
  ["feat.", "ft.", "featuring", "with", "feat", "ft"]

def VERSION_INDICATORS : List String :=
  ["remix", "rmx", "edit", "version", "rework", "refix", "bootleg",
   "vip", "vip mix", "vip remix", "vip rmx", "vip version",
   "dub", "dub mix", "club mix", "radio edit",
   "acoustic", "unplugged", "extended mix", "fix"]

def LIVE_INDICATORS : List String :=
  ["live", "live version", "live at", "live in", "live @", "session"]

def NOISE_INDICATORS : List String :=
  ["official video", "visualizer", "vizualizer", "lyric video", "hq", "hd", "vbr",
   "videoclip", "official visualizer", "remastered", "remaster", "official remaster",
   "web", "promo", "unmastered", "final",
   "purchase at beatport", "beatport exclusive", "sc-rip",
   "labelname", "promo cd", "label", "vinyl rip", "rip", "cd rip", "radio rip"]

/-- `ParserConfig.bracket_pairs`. -/
def BRACKET_PAIRS : List (Char × Char) :=
  [('(', ')'), ('[', ']'), ('\x7b', '\x7d'), ('<', '>')]

/-!
## Step 4 — `word_alternatives` and the hand-compiled regex matchers

`word_alternatives(terms)` in the source sorts the terms by length
(descending, stable), keeps "regexy" terms verbatim as regex fragments and
escapes the rest, joining multi-word terms with `\s+`.  Of the configured
terms only `"feat."` and `"ft."` are regexy, and the only regex metacharacter
they contain is `.` (any character except newline); so an alternative
compiles to a sequence of three kinds of pieces.
-/

inductive APiece where
  | lit : List Char → APiece
  | anyc : APiece
  | wsplus : APiece
deriving DecidableEq, Repr

/-- The character class of the source's `is_regexy` test
(`[\\\[\]\(\)\^\$\.\*\+\?\{\}\|]`; the `\\d|\\s` alternatives require a
backslash, which the class already covers). -/
def regexyChars : List Char :=
  ['\\', '[', ']', '(', ')', '^', '$', '.', '*', '+', '?', '\x7b', '\x7d', '|']

def isRegexyTerm (w : List Char) : Bool := w.any regexyChars.contains

/-- Compile a regexy term verbatim: `.` becomes the any-character piece,
maximal runs of other characters become literals. -/
def compileRegexyAux : List Char → List Char → List APiece
  | acc, [] => if acc.isEmpty then [] else [APiece.lit acc.reverse]
  | acc, c :: rest =>
    if c == '.' then
      (if acc.isEmpty then [] else [APiece.lit acc.reverse]) ++
        APiece.anyc :: compileRegexyAux [] rest
    else compileRegexyAux (c :: acc) rest

/-- Compile an escaped term: words joined by `\s+`. -/
def compilePlain (w : List Char) : List APiece :=
  match pySplit w with
  | [] => []
  | p :: ps => APiece.lit p :: ps.flatMap (fun q => [APiece.wsplus, APiece.lit q])

/-- Stable insertion into a length-descending list (Python's stable
`sorted(key=len, reverse=True)`). -/
def insLenDesc (t : List Char) : List (List Char) → List (List Char)
  | [] => [t]
  | u :: us => if u.length ≤ t.length then t :: u :: us else u :: insLenDesc t us

def sortLenDesc : List (List Char) → List (List Char)
  | [] => []
  | t :: ts => insLenDesc t (sortLenDesc ts)

def word_alternatives (terms : List String) : List (List APiece) :=
  (sortLenDesc (terms.map (·.data))).map fun w =>
    if isRegexyTerm w then compileRegexyAux [] w else compilePlain w

/-- Match a compiled alternative at the head of the input, returning the
rest.  The match is deterministic: `wsplus` is always followed (in every
compiled alternative) by a literal starting with a non-whitespace character,
so only the maximal whitespace run can succeed, and `anyc` consumes exactly
one character. -/
def matchPieces : List APiece → List Char → Option (List Char)
  | [], cs => some cs
  | APiece.lit w :: ps, cs => (dropLitCI w cs).bind (matchPieces ps)
  | APiece.anyc :: ps, cs =>
    match cs with
    | c :: rest => if c == '\n' then none else matchPieces ps rest
    | [] => none
  | APiece.wsplus :: ps, cs =>
    let (w, rest) := spanP isWS cs
    if w.isEmpty then none else matchPieces ps rest

/-- Rests after each alternative that matches at the head of the input, in
alternation order (a caller whose continuation fails backtracks to the next
alternative, exactly as the regex engine does). -/
def matchAltsRests (alts : List (List APiece)) (cs : List Char) : List (List Char) :=
  alts.filterMap fun ps => matchPieces ps cs

def featAlts : List (List APiece) := word_alternatives FEAT_INDICATORS
def versionAlts : List (List APiece) := word_alternatives VERSION_INDICATORS
def liveExtraAlts : List (List APiece) :=
  word_alternatives (LIVE_INDICATORS.filter (fun t => t ≠ "live"))
def noiseLitsPieces : List (List APiece) :=
  NOISE_INDICATORS.map (fun t => compilePlain t.data)

/-- The regex word boundary `\b`: exactly one of the two neighbouring
characters is a word character (a missing neighbour counts as non-word). -/
def boundary (a b : Option Char) : Bool :=
  (match a with | some c => isWordC c | none => false) !=
  (match b with | some c => isWordC c | none => false)

/-- `\b` between the consumed part of `cs` (with `rest` remaining) and
`rest`. -/
def altEndBoundary (cs rest : List Char) : Bool :=
  boundary ((cs.take (cs.length - rest.length)).getLast?) rest.head?

/-- `[n, n-1, ..., 0]` — the order in which a greedy quantifier backtracks. -/
def downFrom : Nat → List Nat
  | 0 => [0]
  | n + 1 => (n + 1) :: downFrom n

/-- First `some` produced by `f` along the list (regex alternative /
backtracking order). -/
def firstSome (f : α → Option β) : List α → Option β
  | [] => none
  | a :: as_ =>
    match f a with
    | some b => some b
    | none => firstSome f as_

/-- Lazy `(?P<grp>.+?)` followed by a continuation test: the shortest
non-empty prefix (containing no newline, which `.` cannot match) whose
remainder satisfies the continuation wins; the continuation returns an
optional capture of its own. -/
def lazyPlusCap (f : List Char → List Char → Option β) :
    List Char → List Char → Option (List Char × β)
  | _, [] => none
  | acc, c :: rest =>
    if c == '\n' then none
    else
      let acc' := acc ++ [c]
      match f acc' rest with
      | some b => some (acc', b)
      | none => lazyPlusCap f acc' rest

/-- Boolean-continuation version of `lazyPlusCap`. -/
def lazyPlus (ok : List Char → List Char → Bool) (acc cs : List Char) :
    Option (List Char) :=
  (lazyPlusCap (fun a r => if ok a r then some () else none) acc cs).map (·.1)

/-!
### Feat patterns

`feat_leading = ^(?:FEAT)\s*[:\-]?\s*(?P<names>.+?)\s*$` and
`feat_trailing = ^(?P<names>.+?)\s*(?:FEAT)\s*[:\-]?\s*$` (IGNORECASE).
The backtracking order of `\s*` (greedy, maximal first) and of the optional
`[:\-]?` (present first) is enumerated explicitly.
-/

/-- `\s*[:\-]?\s*(?P<names>.+?)\s*$` after a feat indicator. -/
def featTailNames (rest1 : List Char) : Option (List Char) :=
  firstSome (fun w1 =>
    let r2 := rest1.drop w1
    let delimOpts : List (List Char) :=
      match r2 with
      | c :: r3 => if c == ':' || c == '-' then [r3, r2] else [r2]
      | [] => [r2]
    firstSome (fun r3 =>
      firstSome (fun w2 =>
        lazyPlus (fun _ rest => rest.all isWS) [] (r3.drop w2))
        (downFrom (spanP isWS r3).1.length))
      delimOpts)
    (downFrom (spanP isWS rest1).1.length)

def featLeading (t : List Char) : Option (List Char) :=
  firstSome featTailNames (matchAltsRests featAlts t)

/-- `\s*(?:FEAT)\s*[:\-]?\s*$` — the part of `feat_trailing` after the
names group must consume the entire remainder. -/
def featTrailingTail (rest : List Char) : Bool :=
  (downFrom (spanP isWS rest).1.length).any fun w1 =>
    (matchAltsRests featAlts (rest.drop w1)).any fun r2 =>
      (downFrom (spanP isWS r2).1.length).any fun w2 =>
        let r3 := r2.drop w2
        let delimOpts : List (List Char) :=
          match r3 with
          | c :: r4 => if c == ':' || c == '-' then [r4, r3] else [r3]
          | [] => [r3]
        delimOpts.any fun r4 => r4.all isWS

def featTrailing (t : List Char) : Option (List Char) :=
  lazyPlus (fun _ rest => featTrailingTail rest) [] t

/-!
### Live pattern

`live_rx = \b(?:live(?:\s+(?:at|in|@)\b.*)?|ALT2)\b` (IGNORECASE), where
`ALT2` covers the configured live phrases other than the bare `live`.
Inside the optional group, `.*` can always be taken empty, so the trailing
`\b` of the whole pattern collapses onto the `\b` after `at|in|@`; a match
exists exactly when one of the explicit cases below fires.
-/

def liveAt (prev : Option Char) (cs : List Char) : Bool :=
  boundary prev cs.head? &&
  ((match dropLitCI "live".data cs with
    | some r =>
      (let (w, r2) := spanP isWS r
       !w.isEmpty &&
         ((match dropLitCI "at".data r2 with
           | some r3 => boundary (some 't') r3.head?
           | none => false) ||
          (match dropLitCI "in".data r2 with
           | some r3 => boundary (some 'n') r3.head?
           | none => false) ||
          (match r2 with
           | '@' :: r3 => boundary (some '@') r3.head?
           | _ => false))) ||
      boundary (some 'e') r.head?
    | none => false) ||
   (matchAltsRests liveExtraAlts cs).any fun rest => altEndBoundary cs rest)

def liveSearchAux : Nat → Option Char → List Char → Bool
  | 0, _, _ => false
  | _, _, [] => false
  | fuel + 1, prev, c :: rest =>
    liveAt prev (c :: rest) || liveSearchAux fuel (some c) rest

def liveSearch (t : List Char) : Bool := liveSearchAux (t.length + 1) none t

/-!
### Original-mix and version patterns
-/

/-- One position of `\boriginal\s*mix\b` (IGNORECASE). -/
def origMixAt (prev : Option Char) (cs : List Char) : Bool :=
  boundary prev cs.head? &&
  (match dropLitCI "original".data cs with
   | some r =>
     let (_, r2) := spanP isWS r
     match dropLitCI "mix".data r2 with
     | some r3 => boundary (some 'x') r3.head?
     | none => false
   | none => false)

def originalMixSearchAux : Nat → Option Char → List Char → Bool
  | 0, _, _ => false
  | _, _, [] => false
  | fuel + 1, prev, c :: rest =>
    origMixAt prev (c :: rest) || originalMixSearchAux fuel (some c) rest

def originalMixSearch (t : List Char) : Bool :=
  originalMixSearchAux (t.length + 1) none t

/-- `version_rx = ^(?P<type>VERSALT)$` searched with both anchors: the whole
text must be one version alternative; the capture is then the whole text. -/
def versionFullType (t : List Char) : Option (List Char) :=
  if (matchAltsRests versionAlts t).any (·.isEmpty) then some t else none

/-!
### Remixer byline patterns
-/

/-- `byline_type_by_name_rx = (?P<type>VERSALT)\s+by\s+(?P<name>.+?)\b`
at one position: returns `(type, name)`. -/
def byline1At (cs : List Char) : Option (List Char × List Char) :=
  firstSome (fun rest1 =>
    let ty := cs.take (cs.length - rest1.length)
    let (w, r2) := spanP isWS rest1
    -- the first `\s+` is maximal: `by` starts with a non-whitespace character
    if w.isEmpty then none
    else
      match dropLitCI "by".data r2 with
      | some r3 =>
        firstSome (fun w3 =>
          if w3 == 0 then none
          else
            (lazyPlus (fun acc rest => boundary acc.getLast? rest.head?) []
              (r3.drop w3)).map fun name => (ty, name))
          (downFrom (spanP isWS r3).1.length)
      | none => none)
    (matchAltsRests versionAlts cs)

def byline1SearchAux : Nat → List Char → Option (List Char × List Char)
  | 0, _ => none
  | _, [] => none
  | fuel + 1, c :: rest =>
    match byline1At (c :: rest) with
    | some r => some r
    | none => byline1SearchAux fuel rest

def byline1Search (t : List Char) : Option (List Char × List Char) :=
  byline1SearchAux (t.length + 1) t

/-- `byline_indicator_name_rx = (?:VERSALT)\s+(?P<name>.+?)\b`
`(?:\s*\((?P<type>.+?)\))?` at one position: returns `(name, type?)`. -/
def byline2At (cs : List Char) : Option (List Char × Option (List Char)) :=
  firstSome (fun rest1 =>
    firstSome (fun w =>
      if w == 0 then none
      else
        (lazyPlus (fun acc rest => boundary acc.getLast? rest.head?) []
          (rest1.drop w)).map fun name =>
          let rest2 := rest1.drop (w + name.length)
          -- optional `\s*\((?P<type>.+?)\)`; `\s*` maximal, `(` non-whitespace
          let ty : Option (List Char) :=
            match (spanP isWS rest2).2 with
            | '(' :: r3 =>
              (lazyPlusCap
                (fun _ rrest => match rrest with
                  | ')' :: _ => some ()
                  | _ => none) [] r3).map (·.1)
            | _ => none
          (name, ty))
      (downFrom (spanP isWS rest1).1.length))
    (matchAltsRests versionAlts cs)

def byline2SearchAux : Nat → List Char → Option (List Char × Option (List Char))
  | 0, _ => none
  | _, [] => none
  | fuel + 1, c :: rest =>
    match byline2At (c :: rest) with
    | some r => some r
    | none => byline2SearchAux fuel rest

def byline2Search (t : List Char) : Option (List Char × Option (List Char)) :=
  byline2SearchAux (t.length + 1) t

/-- `byline_possessive_rx = (?P<name>.+?)['’]\s*(?P<type>VERSALT)\b` from
one starting position: returns `(name, type)`. -/
def byline3FromStart (cs : List Char) : Option (List Char × List Char) :=
  lazyPlusCap
    (fun _ rest =>
      match rest with
      | q :: r2 =>
        if q == '\'' || q == '’' then
          let r3 := (spanP isWS r2).2
          firstSome (fun rest4 =>
            if altEndBoundary r3 rest4 then
              some (r3.take (r3.length - rest4.length))
            else none)
            (matchAltsRests versionAlts r3)
        else none
      | [] => none)
    [] cs

def byline3SearchAux : Nat → List Char → Option (List Char × List Char)
  | 0, _ => none
  | _, [] => none
  | fuel + 1, c :: rest =>
    match byline3FromStart (c :: rest) with
    | some r => some r
    | none => byline3SearchAux fuel rest

def byline3Search (t : List Char) : Option (List Char × List Char) :=
  byline3SearchAux (t.length + 1) t

/-- `byline_name_type_rx = (?P<name>.+?)\s+(?P<type>VERSALT)\b` from one
starting position (the `\s+` is maximal because every version alternative
starts with a non-whitespace character): returns `(name, type)`. -/
def byline4FromStart (cs : List Char) : Option (List Char × List Char) :=
  lazyPlusCap
    (fun _ rest =>
      let (w, r2) := spanP isWS rest
      if w.isEmpty then none
      else
        firstSome (fun rest3 =>
          if altEndBoundary r2 rest3 then
            some (r2.take (r2.length - rest3.length))
          else none)
          (matchAltsRests versionAlts r2))
    [] cs

def byline4SearchAux : Nat → List Char → Option (List Char × List Char)
  | 0, _ => none
  | _, [] => none
  | fuel + 1, c :: rest =>
    match byline4FromStart (c :: rest) with
    | some r => some r
    | none => byline4SearchAux fuel rest

def byline4Search (t : List Char) : Option (List Char × List Char) :=
  byline4SearchAux (t.length + 1) t


/-!
### Noise patterns

`NOISE_REGEXES` of the source, each compiled to a function returning the
possible remainders (in backtracking order) of a match starting at the
current position; `prev` carries the preceding original character for the
leading `\b`.  The literal noise phrases are matched through
`noiseLitsPieces` (in configuration order — `build_noise_alt` does not
sort).
-/

/-- `\bcat[#-]\S+\b`. -/
def catRests (prev : Option Char) (cs : List Char) : List (List Char) :=
  if !boundary prev cs.head? then [] else
  match dropLitCI "cat".data cs with
  | some (h :: r) =>
    if h == '#' || h == '-' then
      let run := (spanP (fun c => !isWS c) r).1.length
      (downFrom run).filterMap fun k =>
        if k == 0 then none
        else if boundary ((r.take k).getLast?) (r.drop k).head? then some (r.drop k)
        else none
    else []
  | _ => []

/-- `\btrack\d{1,2}\b`. -/
def trackNNRests (prev : Option Char) (cs : List Char) : List (List Char) :=
  if !boundary prev cs.head? then [] else
  match dropLitCI "track".data cs with
  | some r =>
    let run := min 2 (spanP isDigitC r).1.length
    (downFrom run).filterMap fun k =>
      if k == 0 then none
      else if boundary ((r.take k).getLast?) (r.drop k).head? then some (r.drop k)
      else none
  | none => []

/-- `\bkey\s+[A-G][#b]?\d?\b` (IGNORECASE, so `[#b]` also accepts `B`).
The two optional pieces backtrack greedily: with-both, with-class-only,
with-digit-only, with-neither — the impossible combinations are pruned. -/
def keyRests (prev : Option Char) (cs : List Char) : List (List Char) :=
  if !boundary prev cs.head? then [] else
  match dropLitCI "key".data cs with
  | some r =>
    let (w, r2) := spanP isWS r
    if w.isEmpty then [] else
    match r2 with
    | n :: r3 =>
      if 'a' ≤ lowerC n && lowerC n ≤ 'g' then
        let cands : List (Char × List Char) :=
          match r3 with
          | m :: r4 =>
            if m == '#' || lowerC m == 'b' then
              (match r4 with
               | d :: r5 =>
                 if isDigitC d then [(d, r5), (m, r4), (n, r3)]
                 else [(m, r4), (n, r3)]
               | [] => [(m, r4), (n, r3)])
            else if isDigitC m then [(m, r4), (n, r3)]
            else [(n, r3)]
          | [] => [(n, r3)]
        cands.filterMap fun (lc, rest) =>
          if boundary (some lc) rest.head? then some rest else none
      else []
    | [] => []
  | none => []

/-- `\b\d{2,3}\s*bpm\b`. -/
def bpmRests (prev : Option Char) (cs : List Char) : List (List Char) :=
  if !boundary prev cs.head? then [] else
  let run := min 3 (spanP isDigitC cs).1.length
  (downFrom run).filterMap fun k =>
    if k < 2 then none
    else
      let r2 := (spanP isWS (cs.drop k)).2
      match dropLitCI "bpm".data r2 with
      | some r3 => if boundary (some 'm') r3.head? then some r3 else none
      | none => none

/-- `\b\d{2,3}\s*(?:kbps|kb/s|kbit/s|k)\b`. -/
def bitrateRests (prev : Option Char) (cs : List Char) : List (List Char) :=
  if !boundary prev cs.head? then [] else
  let run := min 3 (spanP isDigitC cs).1.length
  ((downFrom run).filter (fun k => decide (2 ≤ k))).flatMap fun k =>
    let r2 := (spanP isWS (cs.drop k)).2
    (["kbps", "kb/s", "kbit/s", "k"].map (·.data)).filterMap fun alt =>
      match dropLitCI alt r2 with
      | some r3 =>
        if boundary alt.getLast? r3.head? then some r3 else none
      | none => none

/-- `\bV[0-9]\b` (IGNORECASE). -/
def vnRests (prev : Option Char) (cs : List Char) : List (List Char) :=
  if !boundary prev cs.head? then [] else
  match cs with
  | v :: d :: r =>
    if lowerC v == 'v' && isDigitC d && boundary (some d) r.head? then [r] else []
  | _ => []

/-- `\b(?:CBR|VBR)\b` (IGNORECASE). -/
def cbrVbrRests (prev : Option Char) (cs : List Char) : List (List Char) :=
  if !boundary prev cs.head? then [] else
  (["cbr", "vbr"].map (·.data)).filterMap fun alt =>
    match dropLitCI alt cs with
    | some r => if boundary (some 'r') r.head? then some r else none
    | none => none

/-- The literal alternatives `\b<phrase>\b` of `build_noise_alt`. -/
def noiseLitRests (prev : Option Char) (cs : List Char) : List (List Char) :=
  noiseLitsPieces.filterMap fun ps =>
    if !boundary prev cs.head? then none
    else
      match matchPieces ps cs with
      | some rest => if altEndBoundary cs rest then some rest else none
      | none => none

/-- All alternatives of `noise_rx` at one position, literals first then the
regex terms, mirroring `build_noise_alt(NOISE_INDICATORS, NOISE_REGEXES)`. -/
def noiseAllRests (prev : Option Char) (cs : List Char) : List (List Char) :=
  noiseLitRests prev cs ++ catRests prev cs ++ trackNNRests prev cs ++
  keyRests prev cs ++ bpmRests prev cs ++ bitrateRests prev cs ++
  vnRests prev cs ++ cbrVbrRests prev cs

/-- `noise_rx.search(t)` — some alternative matches somewhere. -/
def noiseSearchAux : Nat → Option Char → List Char → Bool
  | 0, _, _ => false
  | _, _, [] => false
  | fuel + 1, prev, c :: rest =>
    !(noiseAllRests prev (c :: rest)).isEmpty || noiseSearchAux fuel (some c) rest

def noiseSearch (t : List Char) : Bool := noiseSearchAux (t.length + 1) none t

/-- `noise_rx.fullmatch(t)` — some alternative of the *search* alternation
matches the whole text (used, against the builder's comment, by
`NoiseClassifier.classify`). -/
def noiseSearchFullmatch (t : List Char) : Bool :=
  (noiseAllRests none t).any (·.isEmpty)

/-- `noise_full_rx.fullmatch(t)` in `step4_parse_brackets`:
`^(?:...)$` built by `build_noise_fullmatch_alt` with `allow_quotes=False` —
the literals appear without `\b`, the regex terms verbatim. -/
def noiseFullNoQuote (t : List Char) : Bool :=
  (noiseLitsPieces.any fun ps => matchPieces ps t == some []) ||
  ((catRests none t ++ trackNNRests none t ++ keyRests none t ++
    bpmRests none t ++ bitrateRests none t ++ vnRests none t ++
    cbrVbrRests none t).any (·.isEmpty))

/-- The optional quote-plus-whitespace wrapper `["'“”‘’]?\s*` of
`build_noise_fullmatch_alt` with `allow_quotes=True`
(`NoiseClassifier._build_noise_fullmatch_alt`). -/
def quoteSet : List Char := ['"', '\'', '“', '”', '‘', '’']

def dropQuoteWs (cs : List Char) : List Char :=
  let cs1 := match cs with
    | q :: r => if quoteSet.contains q then r else q :: r
    | [] => []
  (spanP isWS cs1).2

def quoteTrail (rest : List Char) : Bool := (dropQuoteWs rest).isEmpty

/-- `NoiseClassifier`'s `noise_full_rx` used with `.search`: the pattern is
anchored `^(?:...)$`, so a search succeeds exactly when the whole text
matches one quote-wrapped alternative.  The consumed leading quote or
whitespace characters are non-word, so passing `none` as the predecessor of
the body position gives the same `\b` verdicts. -/
def noiseFullQuoted (t : List Char) : Bool :=
  let body := dropQuoteWs t
  (noiseLitsPieces.any fun ps =>
    match matchPieces ps body with
    | some rest => quoteTrail rest
    | none => false) ||
  ((catRests none body ++ trackNNRests none body ++ keyRests none body ++
    bpmRests none body ++ bitrateRests none body ++ vnRests none body ++
    cbrVbrRests none body).any quoteTrail)

/-!
## Step 4 — spans, mask, classification, harvesting
(`step4_parse_brackets.py`)
-/

/-- `_Span` of the source: `end` is exclusive and renamed `stop` (`end` is a
Lean keyword); `depth` is the 1-based nesting depth when the pair closes. -/
structure Span where
  start : Nat
  stop : Nat
  l : Char
  r : Char
  depth : Nat
deriving DecidableEq, Repr

/-- `_find_spans_nested`: stack-based matcher.  The Lean stack head is the
Python stack top (`stack[-1]`).  A closer matching the top pops and emits a
span; a mismatched closer is ignored. -/
def _find_spans_nested_aux (pairs : List (Char × Char)) :
    List Char → Nat → List (Char × Nat) → List Span → List Span
  | [], _, _, spans => spans
  | c :: rest, i, stack, spans =>
    if pairs.any (fun p => p.1 == c) then
      _find_spans_nested_aux pairs rest (i + 1) ((c, i) :: stack) spans
    else
      match (pairs.find? (fun p => p.2 == c)).map (·.1) with
      | some opener =>
        match stack with
        | (lch, pos) :: stk =>
          if lch == opener then
            _find_spans_nested_aux pairs rest (i + 1) stk
              (spans ++ [⟨pos, i + 1, lch, c, stk.length + 1⟩])
          else
            _find_spans_nested_aux pairs rest (i + 1) stack spans
        | [] => _find_spans_nested_aux pairs rest (i + 1) stack spans
      | none => _find_spans_nested_aux pairs rest (i + 1) stack spans

def _find_spans_nested (s : List Char) (pairs : List (Char × Char)) : List Span :=
  _find_spans_nested_aux pairs s 0 [] []

/-- `sorted(range(len(spans)), key=lambda i: (-depth, start))`, realised as a
sort of the span list itself: the keys `(-depth, start)` are pairwise
distinct (no two spans share a start position), so the stable Python sort
and this insertion sort produce the same list. -/
def spanKeyLE (a b : Span) : Bool :=
  b.depth < a.depth || (a.depth == b.depth && a.start ≤ b.start)

def insertSpan (a : Span) : List Span → List Span
  | [] => [a]
  | b :: bs => if spanKeyLE b a then b :: insertSpan a bs else a :: b :: bs

def sortSpans : List Span → List Span
  | [] => []
  | a :: rest => insertSpan a (sortSpans rest)

/-- `re.sub(r"\s{2,}", " ", x)` — any whitespace run of length at least two
becomes a single space (a single whitespace character is left unchanged). -/
def subWs2Aux : Nat → List Char → List Char
  | 0, cs => cs
  | fuel + 1, cs =>
    match cs with
    | [] => []
    | c :: rest =>
      match rest with
      | d :: _ =>
        if isWS c && isWS d then
          let (_, rest') := spanP isWS rest
          ' ' :: subWs2Aux fuel rest'
        else c :: subWs2Aux fuel rest
      | [] => [c]

def subWs2 (cs : List Char) : List Char := subWs2Aux cs.length cs

/-- The separator-only class of `_is_effectively_empty`
(`^[\s\-\–\—_/|:;,.]+$`). -/
def sepOnlyClass (c : Char) : Bool :=
  isWS c || c == '-' || c == '–' || c == '—' || c == '_' || c == '/' ||
  c == '|' || c == ':' || c == ';' || c == ',' || c == '.'

def _is_effectively_empty (cs : List Char) : Bool :=
  cs.isEmpty || (stripWS cs).isEmpty || cs.all sepOnlyClass

/-- `_tidy_name`: `s.strip(" -:()[]{}\"'\t")`. -/
def tidyChars : List Char :=
  [' ', '-', ':', '(', ')', '[', ']', '\x7b', '\x7d', '"', '\'', '\t']

def _tidy_name (cs : List Char) : List Char := stripSet tidyChars cs

/-- `Harvested` of `step4_parse_brackets.py` (field `type` is the
segment-type string; `span` defaults to Python `None`). -/
structure Harvested where
  raw : String
  text : String
  type : String
  artist : Option String := none
  version : Option String := none
  span : Option Span := none
deriving DecidableEq, Repr

/-- The version-inference loop of the byline branch:
`for tok in sorted(VERSION_INDICATORS, key=len, reverse=True):`
`if head.startswith(tok.lower()): v = tok`. -/
def inferVersionHead (t : List Char) : Option (List Char) :=
  (sortLenDesc (VERSION_INDICATORS.map (·.data))).find? fun tok =>
    tok.isPrefixOf (t.map lowerC)

/-- The noise and catch-all tail of `_classify` (reached when every earlier
classifier stage has declined). -/
def noiseOrUnknown (t : List Char) : Harvested :=
  if noiseFullNoQuote t then { raw := "", text := String.mk t, type := "noise" }
  else if noiseSearch t then { raw := "", text := String.mk t, type := "noise" }
  else { raw := "", text := String.mk t, type := "unknown" }

/-- `_classify` of `step4_parse_brackets.py` (the `print` calls are pure
logging and are dropped). -/
def _classify (text : String) : Harvested :=
  let t := stripWS text.data
  let featM := match featLeading t with
    | some names => some names
    | none => featTrailing t
  match featM with
  | some names =>
    let fn := _tidy_name names
    { raw := "", text := String.mk t, type := "feat",
      artist := if fn.isEmpty then none else some (String.mk fn) }
  | none =>
  if liveSearch t then { raw := "", text := String.mk t, type := "live" }
  else if originalMixSearch t then
    { raw := "", text := String.mk t, type := "version",
      version := some "Original Mix" }
  else
  match versionFullType t with
  | some ty =>
    { raw := "", text := String.mk t, type := "version",
      version := some (String.mk (capitalizeWords ty)) }
  | none =>
  let bl : Option (List Char × Option (List Char)) :=
    match byline1Search t with
    | some (ty, name) => some (name, some ty)
    | none =>
      match byline2Search t with
      | some (name, ty) => some (name, ty)
      | none =>
        match byline3Search t with
        | some (name, ty) => some (name, some ty)
        | none => none
  match bl with
  | some (name, tyOpt) =>
    let nameT := _tidy_name name
    let v := match tyOpt with
      | some ty => some ty
      | none => inferVersionHead t
    let v := v.map capitalizeWords
    { raw := "", text := String.mk t, type := "remix",
      artist := if nameT.isEmpty then none else some (String.mk nameT),
      version := match v with
        | some vv => if vv.isEmpty then none else some (String.mk vv)
        | none => none }
  | none =>
  match byline4Search t with
  | some (name, ty) =>
    let candidate := stripWS name
    if !(versionFullType candidate).isSome && !liveSearch candidate then
      { raw := "", text := String.mk t, type := "remix",
        artist := some (String.mk (_tidy_name candidate)),
        version := some (String.mk (capitalizeWords ty)) }
    else noiseOrUnknown t
  | none => noiseOrUnknown t

/-- Characters of `base` in `[start+1, stop-1)` that are still alive
(`inner_chars` of `parse_brackets_nested`). -/
def innerChars (base : List Char) (alive : List Bool) (start stop : Nat) :
    List Char :=
  (List.range' (start + 1) (stop - 1 - (start + 1))).filterMap fun i =>
    match base.get? i, alive.get? i with
    | some c, some true => some c
    | _, _ => none

/-- Mark `[start, stop)` dead. -/
def markDead (alive : List Bool) (start stop : Nat) : List Bool :=
  alive.mapIdx fun i b => if start ≤ i && i < stop then false else b

/-- `"".join(ch for i, ch in enumerate(base) if alive[i])`. -/
def filterAlive (base : List Char) (alive : List Bool) : List Char :=
  (base.zip alive).filterMap fun (c, a) => if a then some c else none

/-- The harvesting loop of `parse_brackets_nested` over the depth-ordered
span list. -/
def harvestLoop (base : List Char) :
    List Span → List Bool → List Harvested → List Bool × List Harvested
  | [], alive, acc => (alive, acc)
  | sp :: rest, alive, acc =>
    let inner := stripWS (subWs2 (innerChars base alive sp.start sp.stop))
    if _is_effectively_empty inner then
      harvestLoop base rest (markDead alive sp.start sp.stop) acc
    else
      let h := _classify (String.mk inner)
      let h := { h with
        raw := String.mk (sp.l :: inner ++ [sp.r])
        text := String.mk inner
        span := some sp }
      harvestLoop base rest (markDead alive sp.start sp.stop) (acc ++ [h])

/-- `parse_brackets_nested` of `step4_parse_brackets.py`. -/
def parse_brackets_nested (base : String) : String × List Harvested :=
  let bs := base.data
  let spans := _find_spans_nested bs BRACKET_PAIRS
  let ordered := sortSpans spans
  let (alive, harvested) := harvestLoop bs ordered (bs.map fun _ => true) []
  let cleaned := stripWS (subWs2 (filterAlive bs alive))
  (String.mk cleaned, harvested)

/-!
## The classifier objects of `steps/brackets/classifiers.py` and the chain
of `steps/brackets/__init__.py` (`BracketParser.classifiers`)

`FeatClassifier` and `LiveClassifier` compile exactly the patterns already
embedded above; `RemixClassifier` differs from `_classify` in its
last-resort guard (a case-sensitive substring test against the raw
indicator lists); `NoiseClassifier.classify` calls `.fullmatch` on its
*search* pattern (`patterns[0]`) and `.search` on its *anchored* pattern
(`patterns[1]`).
-/

def FeatClassifier_classify (text : String) : Option Harvested :=
  let t := stripWS text.data
  let featM := match featLeading t with
    | some names => some names
    | none => featTrailing t
  featM.map fun names =>
    let fn := _tidy_name names
    { raw := "", text := String.mk t, type := "feat",
      artist := if fn.isEmpty then none else some (String.mk fn) }

def LiveClassifier_classify (text : String) : Option Harvested :=
  let t := stripWS text.data
  if liveSearch t then some { raw := "", text := String.mk t, type := "live" }
  else none

def RemixClassifier_classify (text : String) : Option Harvested :=
  let t := stripWS text.data
  match versionFullType t with
  | some ty =>
    some { raw := "", text := String.mk t, type := "version",
           version := some (String.mk (capitalizeWords ty)) }
  | none =>
  let bl : Option (List Char × Option (List Char)) :=
    match byline1Search t with
    | some (ty, name) => some (name, some ty)
    | none =>
      match byline2Search t with
      | some (name, ty) => some (name, ty)
      | none =>
        match byline3Search t with
        | some (name, ty) => some (name, some ty)
        | none => none
  match bl with
  | some (name, tyOpt) =>
    let nameT := _tidy_name name
    let v := match tyOpt with
      | some ty => some ty
      | none => inferVersionHead t
    let v := v.map capitalizeWords
    some { raw := "", text := String.mk t, type := "remix",
           artist := if nameT.isEmpty then none else some (String.mk nameT),
           version := match v with
             | some vv => if vv.isEmpty then none else some (String.mk vv)
             | none => none }
  | none =>
  match byline4Search t with
  | some (name, ty) =>
    let candidate := stripWS name
    if !(VERSION_INDICATORS.any fun ind => containsSub ind.data candidate) &&
       !(LIVE_INDICATORS.any fun ind => containsSub ind.data candidate) then
      some { raw := "", text := String.mk t, type := "remix",
             artist := some (String.mk (_tidy_name candidate)),
             version := some (String.mk (capitalizeWords ty)) }
    else none
  | none => none

def NoiseClassifier_classify (text : String) : Option Harvested :=
  let t := stripWS text.data
  -- `self.patterns[0].fullmatch(t)` — patterns[0] is the search alternation
  if noiseSearchFullmatch t then
    some { raw := "", text := String.mk t, type := "noise" }
  -- `self.patterns[1].search(t)` — patterns[1] is the anchored alternation
  else if noiseFullQuoted t then
    some { raw := "", text := String.mk t, type := "noise" }
  else none

def UnknownClassifier_classify (text : String) : Option Harvested :=
  let t := stripWS text.data
  some { raw := "", text := String.mk t, type := "unknown" }

/-- The ordered classifier chain of `BracketParser`
(`[FeatClassifier(), LiveClassifier(), RemixClassifier(), NoiseClassifier(),`
`UnknownClassifier()]`, first non-`None` result wins). -/
def chainClassify (text : String) : Option Harvested :=
  match FeatClassifier_classify text with
  | some h => some h
  | none =>
    match LiveClassifier_classify text with
    | some h => some h
    | none =>
      match RemixClassifier_classify text with
      | some h => some h
      | none =>
        match NoiseClassifier_classify text with
        | some h => some h
        | none => UnknownClassifier_classify text

/-!
## `parser.py` — the `SongStringParser` orchestration skeleton

Every stage method of `SongStringParser` raises
`NotImplementedError("<stage name>")`; exceptions are modelled with
`Except`.
-/

inductive PyExc where
  | notImplementedError : String → PyExc
  | parseError : String → PyExc
deriving DecidableEq, Repr

/-- `models.ParseResult` (the final schema; the `debug` payload is not part
of the fixed field set and is omitted). -/
structure ParseResult where
  main_artist : String
  artists : List String
  title : String
  remix_type : Option String
  remixer : List String
  feat_artist : List String
  extension : Option String
  live : Bool
deriving DecidableEq, Repr

/-- The mutable `state` dictionary created at the top of
`SongStringParser.parse`. -/
structure ParseState where
  raw : String
  working : String
  basename : Option String := none
  extension : Option String := none
  harvest : List Harvested := []
  artist_block : Option String := none
  title_block : Option String := none
  main_artist : Option String := none
  artists_primary : List String := []
  feat_artist : List String := []
  remixer : List String := []
  remix_type : Option String := none
  live : Bool := false
deriving Repr

namespace SongStringParser

def _strip_path_and_extension (_ : ParseState) : Except PyExc ParseState :=
  Except.error (PyExc.notImplementedError "_strip_path_and_extension")

def _normalize_unicode_and_spacing (_ : ParseState) : Except PyExc ParseState :=
  Except.error (PyExc.notImplementedError "_normalize_unicode_and_spacing")

def _peel_track_disc_index (_ : ParseState) : Except PyExc ParseState :=
  Except.error (PyExc.notImplementedError "_peel_track_disc_index")

def _harvest_and_classify_brackets (_ : ParseState) : Except PyExc ParseState :=
  Except.error (PyExc.notImplementedError "_harvest_and_classify_brackets")

def _resolve_artist_title_split (_ : ParseState) : Except PyExc ParseState :=
  Except.error (PyExc.notImplementedError "_resolve_artist_title_split")

def _parse_artist_block (_ : ParseState) : Except PyExc ParseState :=
  Except.error (PyExc.notImplementedError "_parse_artist_block")

def _parse_title_block (_ : ParseState) : Except PyExc ParseState :=
  Except.error (PyExc.notImplementedError "_parse_title_block")

def _consolidate_fields (_ : ParseState) : Except PyExc ParseState :=
  Except.error (PyExc.notImplementedError "_consolidate_fields")

def _final_sanity_checks (_ : ParseState) : Except PyExc ParseState :=
  Except.error (PyExc.notImplementedError "_final_sanity_checks")

/-- `SongStringParser._dedupe_preserve_order`. -/
def dedupeAux : List String → List String → List String
  | _, [] => []
  | seen, x :: xs =>
    let key := String.mk (x.data.map lowerC)
    if seen.contains key then dedupeAux seen xs
    else x :: dedupeAux (key :: seen) xs

def _dedupe_preserve_order (items : List String) : List String :=
  dedupeAux [] items

/-- `SongStringParser.parse`: the nine-stage pipeline followed by result
assembly.  Stage 1 raises `NotImplementedError` on every input, so the
assembly code is unreachable but is nevertheless translated faithfully. -/
def parse (raw : String) : Except PyExc ParseResult := do
  let state : ParseState := { raw := raw, working := raw }
  let state ← _strip_path_and_extension state
  let state ← _normalize_unicode_and_spacing state
  let state ← _peel_track_disc_index state
  let state ← _harvest_and_classify_brackets state
  let state ← _resolve_artist_title_split state
  let state ← _parse_artist_block state
  let state ← _parse_title_block state
  let state ← _consolidate_fields state
  let state ← _final_sanity_checks state
  pure {
    main_artist := state.main_artist.getD ""
    artists := _dedupe_preserve_order
      (state.artists_primary ++ state.feat_artist ++ state.remixer)
    title := state.title_block.getD ""
    remix_type := state.remix_type
    remixer := _dedupe_preserve_order state.remixer
    feat_artist := _dedupe_preserve_order state.feat_artist
    extension := state.extension
    live := state.live }

end SongStringParser


/-!
## Statement vocabulary

Definitions used only to state the claim theorems.
-/

/-- Proper nesting of two spans: disjoint, or one strictly contains the
other. -/
def NoD (a b : Span) : Prop :=
  b.stop ≤ a.start ∨ a.stop ≤ b.start ∨
  (a.start < b.start ∧ b.stop < a.stop) ∨ (b.start < a.start ∧ a.stop < b.stop)

/-- A delimiter-class character occurs among the first `n` characters of
`cs` (used to state that a prefix pattern only fires on a delimiter run). -/
def DelimIn (cs : List Char) (n : Nat) : Prop :=
  ∃ i, i < n ∧ ∃ c, cs[i]? = some c ∧ isDelimC c

/-- The spans attached to a harvested-segment list. -/
def harvSpans (hs : List Harvested) : List Span := hs.filterMap (·.span)

/-- The five-valued type set of the classifier chain. -/
def segTypes : List String := ["feat", "live", "version", "remix", "noise", "unknown"]

/-- The invariant carried through `_find_spans_nested_aux`: the stack holds
strictly decreasing, in-range positions of opener characters of `s`; every
produced span is a well-formed matched pair below the current index; stack
positions never fall strictly inside a produced span; and the produced
spans are pairwise properly nested. -/
structure FindInv (pairs : List (Char × Char)) (s : List Char) (i : Nat)
    (stack : List (Char × Nat)) (spans : List Span) : Prop where
  stackSorted : stack.Pairwise (fun a b => b.2 < a.2)
  stackLt : ∀ q ∈ stack, q.2 < i
  stackChars : ∀ q ∈ stack, s[q.2]? = some q.1
  spansWF : ∀ sp ∈ spans, sp.start + 1 < sp.stop ∧ sp.stop ≤ i ∧
      (sp.l, sp.r) ∈ pairs ∧ s[sp.start]? = some sp.l ∧ s[sp.stop - 1]? = some sp.r
  sep : ∀ sp ∈ spans, ∀ q ∈ stack, q.2 < sp.start ∨ sp.stop ≤ q.2
  pw : spans.Pairwise NoD


/-!
# Theorems

Helper lemmas first, then one theorem per claim (with witnesses and
counterexamples as required).
-/

theorem spanP_append (p : Char → Bool) :
    ∀ cs : List Char, (spanP p cs).1 ++ (spanP p cs).2 = cs := by
  intro cs
  induction cs with
  | nil => rfl
  | cons c cs ih =>
    simp only [spanP]
    split
    · rcases h : spanP p cs with ⟨r, rest⟩
      rw [h] at ih
      simpa using ih
    · rfl

theorem spanP_snd_length_le (p : Char → Bool) (cs : List Char) :
    (spanP p cs).2.length ≤ cs.length := by
  conv_rhs => rw [← spanP_append p cs]
  simp

theorem lstripWS_length_le (cs : List Char) : (lstripWS cs).length ≤ cs.length :=
  spanP_snd_length_le _ _

theorem rstripWS_length_le (cs : List Char) : (rstripWS cs).length ≤ cs.length := by
  simpa [rstripWS] using lstripWS_length_le cs.reverse

theorem stripWS_length_le (cs : List Char) : (stripWS cs).length ≤ cs.length :=
  le_trans (rstripWS_length_le _) (lstripWS_length_le _)

theorem subWs2Aux_length_le : ∀ (fuel : Nat) (cs : List Char),
    (subWs2Aux fuel cs).length ≤ cs.length := by
  intro fuel
  induction fuel with
  | zero => intro cs; simp [subWs2Aux]
  | succ n ih =>
    intro cs
    match cs with
    | [] => simp [subWs2Aux]
    | [c] => simp [subWs2Aux]
    | c :: d :: rest =>
      simp only [subWs2Aux]
      split
      · have h1 : (spanP isWS (d :: rest)).2.length ≤ (d :: rest).length :=
          spanP_snd_length_le _ _
        have h2 := ih (spanP isWS (d :: rest)).2
        simp only [List.length_cons] at *
        omega
      · have h2 := ih (d :: rest)
        simp only [List.length_cons] at *
        omega

theorem subWs2_length_le (cs : List Char) : (subWs2 cs).length ≤ cs.length :=
  subWs2Aux_length_le _ _

/-- C1.  The claim says `parse` either returns a `ParseResult` or fails with
a `ParseError` raised by SanityGuard and that no intermediate stage raises.
In the code, every stage method of `SongStringParser` is an unimplemented
placeholder, so `parse` raises `NotImplementedError` from the *first* stage
on every input and never reaches SanityGuard. -/
theorem C1_parse_always_raises_NotImplementedError (raw : String) :
    SongStringParser.parse raw =
      Except.error (PyExc.notImplementedError "_strip_path_and_extension") := rfl

/-- C2.  The normalizer is not idempotent, contradicting its own docstring
("Idempotent and conservative."): on `"a --b"` the first pass yields
`"a - -b"`, the second `"a - - b"`. -/
theorem C2_normalizer_not_idempotent :
    normalize_separators_whitespace "a --b" = "a - -b" ∧
    normalize_separators_whitespace (normalize_separators_whitespace "a --b") =
      "a - - b" ∧
    normalize_separators_whitespace (normalize_separators_whitespace "a --b") ≠
      normalize_separators_whitespace "a --b" :=
  ⟨by decide, by decide, by decide⟩

/-- C8.  The claim (and the comments in `NoiseClassifier.compile`) say the
noise classifier fires when a noise phrase occurs anywhere in the inner text
as a substring.  `NoiseClassifier.classify` however calls `.fullmatch` on
its search pattern and `.search` on its anchored pattern, so the substring
mode is lost: on `"xx promo yy"` the configured phrase `promo` occurs as a
substring (the search regex matches, and `_classify` in
`step4_parse_brackets` does return a noise segment with type only), yet
`NoiseClassifier.classify` returns `None` and the classifier chain falls
through to Unknown. -/
theorem C8_noise_classifier_drops_substring_matches :
    noiseSearch "xx promo yy".data = true ∧
    _classify "xx promo yy" =
      { raw := "", text := "xx promo yy", type := "noise" } ∧
    NoiseClassifier_classify "xx promo yy" = none ∧
    (chainClassify "xx promo yy").map (·.type) = some "unknown" :=
  ⟨by decide, by decide, by decide, by decide⟩


theorem extPeelStep_length_lt {cs cs' e : List Char}
    (h : extPeelStep cs = some (cs', e)) : cs'.length < cs.length := by
  simp only [extPeelStep] at h
  rcases hf : extsCore.find? (fun e =>
      decide ((rstripWS cs).length ≥ e.length + 1) &&
      (((rstripWS cs).drop ((rstripWS cs).length - e.length - 1)).take 1 == ['.']) &&
      (((rstripWS cs).drop ((rstripWS cs).length - e.length)).map lowerC == e)) with _ | e'
  · rw [hf] at h; simp at h
  · rw [hf] at h
    have hp := List.find?_some hf
    have hlen : (rstripWS cs).length ≥ e'.length + 1 := by
      simp only [Bool.and_eq_true, decide_eq_true_eq] at hp
      exact hp.1.1
    have hcs' : cs' = rstripWS ((rstripWS cs).take ((rstripWS cs).length - e'.length - 1)) := by
      simp only [Option.some.injEq, Prod.mk.injEq] at h
      exact h.1.symm
    have h1 : cs'.length ≤ ((rstripWS cs).take ((rstripWS cs).length - e'.length - 1)).length := by
      rw [hcs']; exact rstripWS_length_le _
    have h2 : ((rstripWS cs).take ((rstripWS cs).length - e'.length - 1)).length ≤
        (rstripWS cs).length - e'.length - 1 := by
      simp [List.length_take]
    have h3 : (rstripWS cs).length ≤ cs.length := rstripWS_length_le cs
    omega

theorem extPeelLoop_primary_some :
    ∀ (fuel : Nat) (cs e : List Char), (extPeelLoop fuel cs (some e)).2 = some e := by
  intro fuel
  induction fuel with
  | zero => intro cs e; rfl
  | succ n ih =>
    intro cs e
    simp only [extPeelLoop]
    rcases h : extPeelStep cs with _ | ⟨cs', e'⟩
    · rfl
    · exact ih cs' e

theorem extPeelLoop_fix :
    ∀ (fuel : Nat) (cs : List Char) (p : Option (List Char)), cs.length < fuel →
      extPeelStep (extPeelLoop fuel cs p).1 = none := by
  intro fuel
  induction fuel with
  | zero => intro cs p h; exact absurd h (Nat.not_lt_zero _)
  | succ n ih =>
    intro cs p h
    simp only [extPeelLoop]
    rcases hs : extPeelStep cs with _ | ⟨cs', e⟩
    · simpa using hs
    · have hlt := extPeelStep_length_lt hs
      exact ih cs' _ (by omega)

/-- C9.  The extension peel loop strips trailing `.`+known-extension
suffixes (case-insensitively, with any whitespace before them) until none is
left, and the reported extension is the one captured by the *first* peel —
the outermost trailing suffix.  Concretely, `"name.mp3.wav"` reports `wav`;
in general the loop result admits no further peel, and whenever the first
peel removes extension `e` the loop reports exactly `e`. -/
theorem C9_extension_peel_loop :
    strip_path_and_extension "name.mp3.wav" = ("name", ExtSlot.ext "wav") ∧
    (∀ cs cs' e, extPeelStep cs = some (cs', e) →
      (extPeelLoop (cs.length + 1) cs none).2 = some e) ∧
    (∀ cs p, extPeelStep (extPeelLoop (cs.length + 1) cs p).1 = none) := by
  refine ⟨by decide, ?_, ?_⟩
  · intro cs cs' e h
    simp only [extPeelLoop, h]
    exact extPeelLoop_primary_some _ _ _
  · intro cs p
    exact extPeelLoop_fix _ _ _ (Nat.lt_succ_self _)

theorem C9_witness :
    (extPeelLoop ("a.mp3".data.length + 1) "a.mp3".data none).2 = some "mp3".data :=
  C9_extension_peel_loop.2.1 "a.mp3".data "a".data "mp3".data (by decide)

/-- C10.  For the falsy input `""` the function returns the input paired
with the Python boolean `False`; for every non-empty input whose basename
admits no extension peel the second component is Python `None` — so the
extension slot of the public return value is not always an optional
string. -/
theorem C10_extension_slot_heterogeneous :
    strip_path_and_extension "" = ("", ExtSlot.falseLit) ∧
    (∀ s : String, s ≠ "" → extPeelStep (pyBasename s.data) = none →
      (strip_path_and_extension s).2 = ExtSlot.noneLit) ∧
    (strip_path_and_extension "abc").2 ≠ (strip_path_and_extension "").2 := by
  refine ⟨by decide, ?_, by decide⟩
  intro s hs h
  have hne : s.data.isEmpty = false := by
    cases s with
    | mk data =>
      cases data with
      | nil => exact absurd rfl hs
      | cons c cs => rfl
  simp only [strip_path_and_extension, hne, Bool.false_eq_true, if_false]
  simp only [extPeelLoop, h]

theorem C10_witness :
    (strip_path_and_extension "abc").2 = ExtSlot.noneLit :=
  C10_extension_slot_heterogeneous.2.1 "abc" (by decide) (by decide)


theorem noiseOrUnknown_type (t : List Char) :
    (noiseOrUnknown t).type = "noise" ∨ (noiseOrUnknown t).type = "unknown" := by
  unfold noiseOrUnknown
  split
  · left; rfl
  · split
    · left; rfl
    · right; rfl

theorem classify_type_mem (t : String) : (_classify t).type ∈ segTypes := by
  have hnu : ∀ u : List Char, (noiseOrUnknown u).type ∈ segTypes := by
    intro u
    rcases noiseOrUnknown_type u with h | h <;> simp [h, segTypes]
  simp only [_classify]
  repeat' split
  all_goals first
    | exact hnu _
    | simp [segTypes]

theorem FeatClassifier_some_type {t : String} {h : Harvested}
    (hs : FeatClassifier_classify t = some h) : h.type = "feat" := by
  simp only [FeatClassifier_classify] at hs
  rcases hm : (match featLeading (stripWS t.data) with
    | some names => some names
    | none => featTrailing (stripWS t.data)) with _ | names
  · rw [hm] at hs; simp at hs
  · rw [hm] at hs
    simp only [Option.map_some', Option.some.injEq] at hs
    rw [← hs]

theorem LiveClassifier_some_type {t : String} {h : Harvested}
    (hs : LiveClassifier_classify t = some h) : h.type = "live" := by
  simp only [LiveClassifier_classify] at hs
  split at hs
  · simp only [Option.some.injEq] at hs
    rw [← hs]
  · simp at hs

theorem RemixClassifier_some_type {t : String} {h : Harvested}
    (hs : RemixClassifier_classify t = some h) :
    h.type = "version" ∨ h.type = "remix" := by
  simp only [RemixClassifier_classify] at hs
  repeat' split at hs
  all_goals try exact Option.noConfusion hs
  all_goals simp only [Option.some.injEq] at hs
  all_goals rw [← hs]
  all_goals first
    | (left; rfl)
    | (right; rfl)

theorem NoiseClassifier_some_type {t : String} {h : Harvested}
    (hs : NoiseClassifier_classify t = some h) : h.type = "noise" := by
  simp only [NoiseClassifier_classify] at hs
  repeat' split at hs
  all_goals try exact Option.noConfusion hs
  all_goals simp only [Option.some.injEq] at hs
  all_goals rw [← hs]

/-- C3.  Classification is total: `_classify` returns exactly one segment
for every (in particular every non-empty) inner text, with a type among
feat/live/version/remix/noise/unknown, and the classifier chain of
`BracketParser` always returns a segment because the final
`UnknownClassifier` always succeeds. -/
theorem C3_classification_total (t : String) (_ : t ≠ "") :
    (_classify t).type ∈ segTypes ∧
    ∃ h, chainClassify t = some h ∧ h.type ∈ segTypes := by
  refine ⟨classify_type_mem t, ?_⟩
  unfold chainClassify
  rcases h1 : FeatClassifier_classify t with _ | h
  case some => exact ⟨h, rfl, by simp [FeatClassifier_some_type h1, segTypes]⟩
  rcases h2 : LiveClassifier_classify t with _ | h
  case some => exact ⟨h, rfl, by simp [LiveClassifier_some_type h2, segTypes]⟩
  rcases h3 : RemixClassifier_classify t with _ | h
  case some =>
    refine ⟨h, rfl, ?_⟩
    rcases RemixClassifier_some_type h3 with hh | hh <;> simp [hh, segTypes]
  rcases h4 : NoiseClassifier_classify t with _ | h
  case some => exact ⟨h, rfl, by simp [NoiseClassifier_some_type h4, segTypes]⟩
  exact ⟨_, rfl, by simp [UnknownClassifier_classify, segTypes]⟩

theorem C3_witness :
    (_classify "hello").type ∈ segTypes ∧
    ∃ h, chainClassify "hello" = some h ∧ h.type ∈ segTypes :=
  C3_classification_total "hello" (by decide)

/-- C7 (amended part).  Any inner text the live pattern matches is taken by
the feat or live stage before the remix stages run, so in particular
`"Live Version"` is never parsed as an artist byline. -/
theorem C7_live_never_byline (t : String)
    (h : liveSearch (stripWS t.data) = true) :
    (_classify t).type = "feat" ∨ (_classify t).type = "live" := by
  simp only [_classify]
  split
  · left; rfl
  · rw [if_pos h]
    right; rfl

theorem C7_witness :
    (_classify "Live Version").type = "feat" ∨
    (_classify "Live Version").type = "live" :=
  C7_live_never_byline "Live Version" (by decide)

/-- C7 (counterexample).  The last-resort guard does not reject every name
containing a known version phrase: `"Dub-X Fix"` yields a remixer byline
with name `"Dub-X"`, although `"Dub-X"` contains the configured version
phrase `"dub"` (case-insensitively).  Both `_classify` (whose guard is an
exact version-phrase match) and `RemixClassifier` (whose guard is a
case-sensitive substring test) return the byline. -/
theorem C7_counterexample :
    _classify "Dub-X Fix" =
      { raw := "", text := "Dub-X Fix", type := "remix",
        artist := some "Dub-X", version := some "Fix" } ∧
    RemixClassifier_classify "Dub-X Fix" =
      some { raw := "", text := "Dub-X Fix", type := "remix",
             artist := some "Dub-X", version := some "Fix" } ∧
    "dub" ∈ VERSION_INDICATORS ∧
    containsSub "dub".data ("Dub-X".data.map lowerC) = true :=
  ⟨by decide, by decide, by decide, by decide⟩


theorem spanP_cons_pos {p : Char → Bool} {c : Char} (cs : List Char)
    (h : p c = true) :
    spanP p (c :: cs) = (c :: (spanP p cs).1, (spanP p cs).2) := by
  simp only [spanP, h, if_true]

theorem sepBacktrack_some {cs : List Char} :
    ∀ {j k : Nat}, sepBacktrack cs j = some k →
      ∃ c, cs[k]? = some c ∧ isDelimC c := by
  intro j
  induction j with
  | zero =>
    intro k h
    simp only [sepBacktrack] at h
    rcases hc : cs with _ | ⟨c, rest⟩
    · rw [hc] at h; exact Option.noConfusion h
    · rw [hc] at h
      dsimp only at h
      by_cases hd : isDelimC c
      · rw [if_pos hd] at h
        obtain rfl : (0 : Nat) = k := Option.some.inj h
        exact ⟨c, by simp [hc], hd⟩
      · rw [if_neg hd] at h; exact Option.noConfusion h
  | succ j ih =>
    intro k h
    simp only [sepBacktrack] at h
    rcases hc : cs.drop (j + 1) with _ | ⟨c, rest⟩
    · rw [hc] at h; exact ih h
    · rw [hc] at h
      dsimp only at h
      by_cases hd : isDelimC c
      · rw [if_pos hd] at h
        obtain rfl : j + 1 = k := Option.some.inj h
        refine ⟨c, ?_, hd⟩
        have hg : (cs.drop (j + 1))[0]? = some c := by
          rw [hc]; simp
        rw [List.getElem?_drop] at hg
        simpa using hg
      · rw [if_neg hd] at h; exact ih h

theorem matchSepReq_delim {cs : List Char} {n : Nat}
    (h : matchSepReq cs = some n) : DelimIn cs n := by
  simp only [matchSepReq] at h
  rcases hb : sepBacktrack cs (spanP isWS cs).1.length with _ | k
  · rw [hb] at h; exact Option.noConfusion h
  · rw [hb] at h
    obtain ⟨c, hck, hcd⟩ := sepBacktrack_some hb
    have hdrop : cs.drop k = c :: (cs.drop (k + 1)) := by
      have h1 : (cs.drop k)[0]? = some c := by
        rw [List.getElem?_drop]; simpa using hck
      rcases hd : cs.drop k with _ | ⟨x, rest⟩
      · rw [hd] at h1; exact Option.noConfusion h1
      · rw [hd] at h1
        simp only [List.getElem?_cons_zero, Option.some.injEq] at h1
        subst h1
        have : rest = cs.drop (k + 1) := by
          have := congrArg List.tail hd
          simpa [List.tail_drop] using this.symm
        rw [this]
    have hrun : 1 ≤ (spanP isDelimC (cs.drop k)).1.length := by
      rw [hdrop, spanP_cons_pos _ hcd]
      simp
    refine ⟨k, ?_, c, hck, hcd⟩
    simp only [Option.some.injEq] at h
    omega

theorem rx4Match_delim {cs : List Char} {m : PrefixMatch}
    (h : rx4Match cs = some m) : DelimIn cs m.consumed := by
  simp only [rx4Match] at h
  split at h
  · exact Option.noConfusion h
  · rcases hl : (digitTries 3 cs).filterMap (fun n =>
        match matchSepReq (cs.drop n) with
        | some sl => some (n + sl, digitsToNat ((spanP isDigitC cs).1.take n))
        | none => none) with _ | ⟨⟨n, t⟩, rest'⟩
    · rw [hl] at h; exact Option.noConfusion h
    · rw [hl] at h
      have hmem : (n, t) ∈ (digitTries 3 cs).filterMap (fun n =>
          match matchSepReq (cs.drop n) with
          | some sl => some (n + sl, digitsToNat ((spanP isDigitC cs).1.take n))
          | none => none) := by
        rw [hl]; exact List.mem_cons_self _ _
      obtain ⟨nd, _, hnd⟩ := List.mem_filterMap.mp hmem
      rcases hms : matchSepReq (cs.drop nd) with _ | sl
      · rw [hms] at hnd; exact Option.noConfusion hnd
      · rw [hms] at hnd
        simp only [Option.some.injEq, Prod.mk.injEq] at hnd
        obtain ⟨hn, -⟩ := hnd
        obtain ⟨i, hisl, c, hgc, hcd⟩ := matchSepReq_delim hms
        rw [List.getElem?_drop] at hgc
        have hcons : m.consumed = n := by
          simp only [Option.some.injEq] at h
          rw [← h]
        exact ⟨nd + i, by omega, c, hgc, hcd⟩


theorem rx2Match_delim {cs : List Char} {m : PrefixMatch}
    (h : rx2Match cs = some m) : DelimIn cs m.consumed := by
  rcases cs with _ | ⟨c, rest⟩
  · exact Option.noConfusion h
  · simp only [rx2Match] at h
    split at h
    case isFalse => exact Option.noConfusion h
    split at h
    case isTrue => exact Option.noConfusion h
    rcases hl : (digitTries 2 (rest.drop (spanP isWS rest).1.length)).filterMap
        (fun n => match matchSepReq (rest.drop ((spanP isWS rest).1.length + n)) with
          | some sl => some (1 + (spanP isWS rest).1.length + n + sl,
              digitsToNat ((spanP isDigitC (rest.drop (spanP isWS rest).1.length)).1.take n))
          | none => none) with _ | ⟨⟨n, t⟩, tl⟩
    · rw [hl] at h; exact Option.noConfusion h
    · rw [hl] at h
      have hmem : (n, t) ∈ (digitTries 2 (rest.drop (spanP isWS rest).1.length)).filterMap
          (fun n => match matchSepReq (rest.drop ((spanP isWS rest).1.length + n)) with
            | some sl => some (1 + (spanP isWS rest).1.length + n + sl,
                digitsToNat ((spanP isDigitC (rest.drop (spanP isWS rest).1.length)).1.take n))
            | none => none) := by
        rw [hl]; exact List.mem_cons_self _ _
      obtain ⟨nd, -, hnd⟩ := List.mem_filterMap.mp hmem
      rcases hms : matchSepReq (rest.drop ((spanP isWS rest).1.length + nd)) with _ | sl
      · rw [hms] at hnd; exact Option.noConfusion hnd
      · rw [hms] at hnd
        simp only [Option.some.injEq, Prod.mk.injEq] at hnd
        obtain ⟨hn, -⟩ := hnd
        obtain ⟨i, hisl, d, hgd, hdd⟩ := matchSepReq_delim hms
        rw [List.getElem?_drop] at hgd
        have hcons : m.consumed = n := by
          simp only [Option.some.injEq] at h
          rw [← h]
        refine ⟨(spanP isWS rest).1.length + nd + i + 1, by omega, d, ?_, hdd⟩
        rw [List.getElem?_cons_succ]
        exact hgd

theorem rx3Match_delim {cs : List Char} {m : PrefixMatch}
    (h : rx3Match cs = some m) : DelimIn cs m.consumed := by
  simp only [rx3Match] at h
  split at h
  case isTrue => exact Option.noConfusion h
  split at h
  case h_2 => exact Option.noConfusion h
  case h_1 n d t tl hl =>
  simp only [Option.some.injEq] at h
  have hmem : (n, d, t) ∈ (n, d, t) :: tl := List.mem_cons_self _ _
  rw [← hl] at hmem
  obtain ⟨n1, -, hn1⟩ := List.mem_filterMap.mp hmem
  rcases hx : (cs.drop n1).drop (spanP isWS (cs.drop n1)).1.length with _ | ⟨x, r2⟩
  · rw [hx] at hn1; exact Option.noConfusion hn1
  · rw [hx] at hn1
    dsimp only at hn1
    split at hn1
    case isFalse => exact Option.noConfusion hn1
    split at hn1
    case isTrue => exact Option.noConfusion hn1
    have hmem2 := List.mem_of_mem_head? (Option.mem_def.mpr hn1)
    obtain ⟨n2, -, hn2⟩ := List.mem_filterMap.mp hmem2
    rcases hms : matchSepReq (r2.drop ((spanP isWS r2).1.length + n2)) with _ | sl
    · rw [hms] at hn2; exact Option.noConfusion hn2
    · rw [hms] at hn2
      simp only [Option.some.injEq, Prod.mk.injEq] at hn2
      obtain ⟨hn, -⟩ := hn2
      obtain ⟨i, hisl, e, hge, hed⟩ := matchSepReq_delim hms
      rw [List.getElem?_drop] at hge
      have hcons : m.consumed = n := by rw [← h]
      have hr2 : ∀ j : Nat,
          r2[j]? = cs[n1 + (spanP isWS (cs.drop n1)).1.length + 1 + j]? := by
        intro j
        have h1 : ((cs.drop n1).drop (spanP isWS (cs.drop n1)).1.length)[j + 1]? = r2[j]? := by
          rw [hx]; simp
        rw [List.getElem?_drop, List.getElem?_drop] at h1
        rw [← h1]
        congr 1
        omega
      refine ⟨n1 + (spanP isWS (cs.drop n1)).1.length + 1 +
        ((spanP isWS r2).1.length + n2 + i), by omega, e, ?_, hed⟩
      rw [← hr2]
      exact hge

/-- C4 (amended part).  Three of the four anchored prefix patterns — the
side-letter pattern, the disc-x-track pattern and the bare-track pattern —
strip a prefix only when a delimiter-class character (`: - . _` or space)
occurs inside the consumed prefix, and a bare number glued to letters such
as `"7xBuroo - Title"` is returned unchanged.  (The disc/CD pattern is the
exception, see the counterexample.) -/
theorem C4_delimiter_requirement :
    clean_album_prefix "7xBuroo - Title" 3 =
      ("7xBuroo - Title", { disc := none, track := none, side := none, passes := 0 }) ∧
    (∀ cs m, rx2Match cs = some m → DelimIn cs m.consumed) ∧
    (∀ cs m, rx3Match cs = some m → DelimIn cs m.consumed) ∧
    (∀ cs m, rx4Match cs = some m → DelimIn cs m.consumed) :=
  ⟨by decide,
   fun _ _ h => rx2Match_delim h,
   fun _ _ h => rx3Match_delim h,
   fun _ _ h => rx4Match_delim h⟩

theorem C4_witness : DelimIn "1-x".data 2 :=
  C4_delimiter_requirement.2.2.2 "1-x".data
    { consumed := 2, disc := none, track := some 1, side := none } (by decide)

/-- C4 (counterexample).  The disc/CD pattern ends in `\s*[:\-._ ]*\s*` —
zero or more delimiters — so it strips a disc token even when it is glued
to letters: `"CD2Foo - Title"` loses its `CD2` prefix although the
character after the prefix is `F`, not a delimiter.  This refutes the claim
that *each* of the four patterns requires a following delimiter run. -/
theorem C4_counterexample :
    clean_album_prefix "CD2Foo - Title" 3 =
      ("Foo - Title", { disc := some 2, track := none, side := none, passes := 1 }) ∧
    "CD2Foo - Title".data[3]? = some 'F' ∧ isDelimC 'F' = false :=
  ⟨by decide, by decide, by decide⟩


theorem NoD_symm : Symmetric NoD := by
  intro a b h
  rcases h with h | h | h | h
  · right; left; exact h
  · left; exact h
  · right; right; right; exact h
  · right; right; left; exact h

theorem FindInv.mono {pairs : List (Char × Char)} {s : List Char} {i : Nat}
    {stack : List (Char × Nat)} {spans : List Span}
    (h : FindInv pairs s i stack spans) : FindInv pairs s (i + 1) stack spans where
  stackSorted := h.stackSorted
  stackLt := fun q hq => Nat.lt_succ_of_lt (h.stackLt q hq)
  stackChars := h.stackChars
  spansWF := fun sp hsp =>
    ⟨(h.spansWF sp hsp).1, Nat.le_succ_of_le (h.spansWF sp hsp).2.1,
     (h.spansWF sp hsp).2.2.1, (h.spansWF sp hsp).2.2.2.1, (h.spansWF sp hsp).2.2.2.2⟩
  sep := h.sep
  pw := h.pw

theorem find_aux_inv (pairs : List (Char × Char)) (s : List Char) :
    ∀ (cs : List Char) (i : Nat) (stack : List (Char × Nat)) (spans : List Span),
      s.drop i = cs →
      FindInv pairs s i stack spans →
      (∀ sp ∈ _find_spans_nested_aux pairs cs i stack spans,
        sp.start + 1 < sp.stop ∧ (sp.l, sp.r) ∈ pairs ∧
        s[sp.start]? = some sp.l ∧ s[sp.stop - 1]? = some sp.r) ∧
      (_find_spans_nested_aux pairs cs i stack spans).Pairwise NoD := by
  intro cs
  induction cs with
  | nil =>
    intro i stack spans _ hinv
    refine ⟨?_, hinv.pw⟩
    intro sp hsp
    obtain ⟨h1, _, h3, h4, h5⟩ := hinv.spansWF sp hsp
    exact ⟨h1, h3, h4, h5⟩
  | cons c rest ih =>
    intro i stack spans hdrop hinv
    have hci : s[i]? = some c := by
      have h1 : (s.drop i)[0]? = some c := by rw [hdrop]; simp
      rw [List.getElem?_drop] at h1
      simpa using h1
    have hrest : s.drop (i + 1) = rest := by
      have h2 := congrArg List.tail hdrop
      simpa [List.tail_drop] using h2
    simp only [_find_spans_nested_aux]
    split
    · -- opener: push (c, i)
      apply ih (i + 1) ((c, i) :: stack) spans hrest
      refine ⟨?_, ?_, ?_, ?_, ?_, hinv.pw⟩
      · exact List.Pairwise.cons (fun q hq => hinv.stackLt q hq) hinv.stackSorted
      · intro q hq
        rcases List.mem_cons.mp hq with h | h
        · subst h; exact Nat.lt_succ_self _
        · exact Nat.lt_succ_of_lt (hinv.stackLt q h)
      · intro q hq
        rcases List.mem_cons.mp hq with h | h
        · subst h; exact hci
        · exact hinv.stackChars q h
      · exact fun sp hsp => (hinv.mono).spansWF sp hsp
      · intro sp hsp q hq
        rcases List.mem_cons.mp hq with h | h
        · subst h
          right
          exact (hinv.spansWF sp hsp).2.1
        · exact hinv.sep sp hsp q h
    · -- not an opener
      split
      · -- a closer with opener `opener`
        rename_i opener hfind
        obtain ⟨p, hpfind, hp1⟩ := Option.map_eq_some'.mp hfind
        have hpmem : p ∈ pairs := List.mem_of_find?_eq_some hpfind
        have hp2 : p.2 = c := by
          have := List.find?_some hpfind
          exact eq_of_beq this
        split
        · -- non-empty stack, top (lch, pos)
          rename_i lch pos stk
          split
          · -- matching closer: emit span
            rename_i hlch
            have hlch' : lch = opener := eq_of_beq hlch
            have hpos_lt : pos < i := hinv.stackLt (lch, pos) (List.mem_cons_self _ _)
            have hpos_char : s[pos]? = some lch :=
              hinv.stackChars (lch, pos) (List.mem_cons_self _ _)
            have hpair : (lch, c) ∈ pairs := by
              have : (lch, c) = p := by
                rcases p with ⟨p1, p2⟩
                simp only [Prod.mk.injEq]
                exact ⟨by rw [hlch', ← hp1], by rw [← hp2]⟩
              rw [this]
              exact hpmem
            apply ih (i + 1) stk (spans ++
              [({ start := pos, stop := i + 1, l := lch, r := c,
                  depth := stk.length + 1 } : Span)]) hrest
            refine ⟨?_, ?_, ?_, ?_, ?_, ?_⟩
            · exact hinv.stackSorted.of_cons
            · exact fun q hq => Nat.lt_succ_of_lt (hinv.stackLt q (List.mem_cons_of_mem _ hq))
            · exact fun q hq => hinv.stackChars q (List.mem_cons_of_mem _ hq)
            · intro sp hsp
              rcases List.mem_append.mp hsp with h | h
              · exact (hinv.mono).spansWF sp h
              · have hsp' : sp = ⟨pos, i + 1, lch, c, stk.length + 1⟩ := by
                  simpa using h
                subst hsp'
                refine ⟨?_, le_refl _, hpair, hpos_char, ?_⟩
                · show pos + 1 < i + 1
                  omega
                · show s[i + 1 - 1]? = some c
                  simpa using hci
            · intro sp hsp q hq
              rcases List.mem_append.mp hsp with h | h
              · exact hinv.sep sp h q (List.mem_cons_of_mem _ hq)
              · have hsp' : sp = ⟨pos, i + 1, lch, c, stk.length + 1⟩ := by
                  simpa using h
                subst hsp'
                left
                exact List.rel_of_pairwise_cons hinv.stackSorted hq
            · rw [List.pairwise_append]
              refine ⟨hinv.pw, List.pairwise_singleton _ _, ?_⟩
              intro a ha b hb
              have hb' : b = ⟨pos, i + 1, lch, c, stk.length + 1⟩ := by simpa using hb
              subst hb'
              rcases hinv.sep a ha (lch, pos) (List.mem_cons_self _ _) with h | h
              · right; right; right
                exact ⟨h, Nat.lt_succ_of_le (hinv.spansWF a ha).2.1⟩
              · right; left
                exact h
          · -- mismatched closer: ignore
            exact ih (i + 1) ((lch, pos) :: stk) spans hrest hinv.mono
        · -- empty stack: ignore closer
          exact ih (i + 1) [] spans hrest hinv.mono
      · -- not a bracket character
        exact ih (i + 1) stack spans hrest hinv.mono

/-- C5.  The stack-based bracket matcher produces a properly nested span
list: every produced span is a genuinely matched pair of the configured
family sitting at its recorded positions (so a closer that does not match
the innermost open bracket never produces a span), and any two distinct
produced spans are either disjoint or one strictly contains the other. -/
theorem C5_spans_properly_nested (s : List Char) :
    (∀ sp ∈ _find_spans_nested s BRACKET_PAIRS,
      sp.start + 1 < sp.stop ∧ (sp.l, sp.r) ∈ BRACKET_PAIRS ∧
      s[sp.start]? = some sp.l ∧ s[sp.stop - 1]? = some sp.r) ∧
    (∀ sp1 ∈ _find_spans_nested s BRACKET_PAIRS,
     ∀ sp2 ∈ _find_spans_nested s BRACKET_PAIRS,
      sp1 ≠ sp2 → NoD sp1 sp2) := by
  have hbase : FindInv BRACKET_PAIRS s 0 [] [] :=
    ⟨List.Pairwise.nil, by simp, by simp, by simp, by simp, List.Pairwise.nil⟩
  obtain ⟨hwf, hpw⟩ := find_aux_inv BRACKET_PAIRS s s 0 [] [] (by simp) hbase
  exact ⟨hwf, fun sp1 h1 sp2 h2 hne => hpw.forall NoD_symm h1 h2 hne⟩

theorem C5_witness :
    NoD ⟨0, 3, '(', ')', 1⟩ ⟨3, 6, '[', ']', 1⟩ :=
  (C5_spans_properly_nested "(a)[b]".data).2
    ⟨0, 3, '(', ')', 1⟩ (by decide) ⟨3, 6, '[', ']', 1⟩ (by decide) (by decide)


theorem insertSpan_perm (a : Span) : ∀ l : List Span, (insertSpan a l).Perm (a :: l) := by
  intro l
  induction l with
  | nil => exact List.Perm.refl _
  | cons b bs ih =>
    simp only [insertSpan]
    split
    · exact (List.Perm.cons b ih).trans (List.Perm.swap a b bs)
    · exact List.Perm.refl _

theorem sortSpans_perm : ∀ l : List Span, (sortSpans l).Perm l := by
  intro l
  induction l with
  | nil => exact List.Perm.refl _
  | cons a rest ih =>
    exact (insertSpan_perm a (sortSpans rest)).trans (List.Perm.cons a ih)

theorem harvestLoop_spans_sublist (base : List Char) :
    ∀ (l : List Span) (alive : List Bool) (acc : List Harvested),
      ∃ S : List Span,
        harvSpans (harvestLoop base l alive acc).2 = harvSpans acc ++ S ∧
        S.Sublist l := by
  intro l
  induction l with
  | nil =>
    intro alive acc
    exact ⟨[], by simp [harvestLoop], List.nil_sublist _⟩
  | cons sp rest ih =>
    intro alive acc
    simp only [harvestLoop]
    split
    · obtain ⟨S, hS, hsub⟩ := ih (markDead alive sp.start sp.stop) acc
      exact ⟨S, hS, hsub.cons sp⟩
    · obtain ⟨S, hS, hsub⟩ := ih (markDead alive sp.start sp.stop)
        (acc ++ [{ _classify (String.mk (stripWS (subWs2
            (innerChars base alive sp.start sp.stop)))) with
          raw := String.mk (sp.l :: stripWS (subWs2
            (innerChars base alive sp.start sp.stop)) ++ [sp.r])
          text := String.mk (stripWS (subWs2
            (innerChars base alive sp.start sp.stop)))
          span := some sp }])
      refine ⟨sp :: S, ?_, hsub.cons₂ sp⟩
      rw [hS]
      simp [harvSpans, List.filterMap_append]

theorem filterAlive_length_le (base : List Char) (alive : List Bool) :
    (filterAlive base alive).length ≤ base.length :=
  le_trans (List.length_filterMap_le _ _)
    (by rw [List.length_zip]; exact Nat.min_le_left _ _)

theorem pairwise_find_spans (s : List Char) :
    (_find_spans_nested s BRACKET_PAIRS).Pairwise NoD := by
  have hbase : FindInv BRACKET_PAIRS s 0 [] [] :=
    ⟨List.Pairwise.nil, by simp, by simp, by simp, by simp, List.Pairwise.nil⟩
  exact (find_aux_inv BRACKET_PAIRS s s 0 [] [] (by simp) hbase).2

/-- C6 (amended part).  The spans attached to the harvested segments are
pairwise *properly nested* — any two are disjoint or one strictly contains
the other (they are not pairwise non-overlapping in general, see the
counterexample) — and the cleaned string is never longer than the
original. -/
theorem C6_harvest_spans_nested_and_cleaned_short (base : String) :
    (harvSpans (parse_brackets_nested base).2).Pairwise NoD ∧
    (parse_brackets_nested base).1.length ≤ base.length := by
  constructor
  · obtain ⟨S, hS, hsub⟩ := harvestLoop_spans_sublist base.data
      (sortSpans (_find_spans_nested base.data BRACKET_PAIRS))
      (base.data.map fun _ => true) []
    have hsorted : (sortSpans (_find_spans_nested base.data BRACKET_PAIRS)).Pairwise NoD :=
      ((sortSpans_perm _).pairwise_iff (fun h => NoD_symm h)).mpr
        (pairwise_find_spans base.data)
    have hpwS : S.Pairwise NoD := hsorted.sublist hsub
    have h2 : (parse_brackets_nested base).2 =
        (harvestLoop base.data
          (sortSpans (_find_spans_nested base.data BRACKET_PAIRS))
          (base.data.map fun _ => true) []).2 := rfl
    rw [h2, hS]
    simpa [harvSpans] using hpwS
  · have h1 : (parse_brackets_nested base).1 =
        String.mk (stripWS (subWs2 (filterAlive base.data
          (harvestLoop base.data
            (sortSpans (_find_spans_nested base.data BRACKET_PAIRS))
            (base.data.map fun _ => true) []).1))) := rfl
    rw [h1]
    show (stripWS (subWs2 (filterAlive base.data _))).length ≤ base.data.length
    exact le_trans (stripWS_length_le _) (le_trans (subWs2_length_le _)
      (filterAlive_length_le _ _))

/-- C6 (counterexample).  On `"(a (b) c)"` the harvester returns two
segments whose spans are `(3, 6)` (the inner pair) and `(0, 9)` (the outer
pair); both ranges contain position 3, so the attached spans are *not*
pairwise non-overlapping as character ranges of the original string. -/
theorem C6_counterexample :
    harvSpans (parse_brackets_nested "(a (b) c)").2 =
      [{ start := 3, stop := 6, l := '(', r := ')', depth := 2 },
       { start := 0, stop := 9, l := '(', r := ')', depth := 1 }] ∧
    ∃ i, (3 ≤ i ∧ i < 6) ∧ (0 ≤ i ∧ i < 9) :=
  ⟨by decide, ⟨3, ⟨by decide, by decide⟩, ⟨by decide, by decide⟩⟩⟩


/-!
## Embedding validation

The following anonymous checks replay representative cases of the
repository's own unit-test suites (`tests/unit/test_step1_path_ext.py`,
`test_step2_normalize.py`, `test_step3_track_index.py`) and of the
bracket-harvest scenarios of the specification against the embedded
functions.
-/

example : strip_path_and_extension "ALBUM RIP\\CD2\\07_Unknown_Artist_-_Untitled_.flac" =
    ("07_Unknown_Artist_-_Untitled_", ExtSlot.ext "flac") := by decide

example : strip_path_and_extension "/mnt/music/Artist - Title (Radio Edit).MP3" =
    ("Artist - Title (Radio Edit)", ExtSlot.ext "mp3") := by decide

example : strip_path_and_extension "NoExt Or Weird" =
    ("NoExt Or Weird", ExtSlot.noneLit) := by decide

example : strip_path_and_extension
    "D:/Folder\\anotherfolder\\yetanotheroflder/lastfolder/Barry B - De barry way.mp3.wav" =
    ("Barry B - De barry way", ExtSlot.ext "wav") := by decide

example : strip_path_and_extension "AC/DC - Back in Black.mp3" =
    ("AC/DC - Back in Black", ExtSlot.ext "mp3") := by decide

example : normalize_separators_whitespace "Artist — Title ~ (Extended Mix)" =
    "Artist - Title ~ (Extended Mix)" := by decide

example : normalize_separators_whitespace "Main Artist – Title [feat. Who?] – (Dub)" =
    "Main Artist - Title [feat. Who?] - (Dub)" := by decide

example : normalize_separators_whitespace "CamelPhat&Elderbrook - Cola" =
    "CamelPhat&Elderbrook - Cola" := by decide

example : normalize_separators_whitespace "A|B|C - Track - (Bootleg)" =
    "A | B | C - Track - (Bootleg)" := by decide

example : ( clean_album_prefix "02-Artist A - Title" 3).1 = "Artist A - Title" := by decide

example : clean_album_prefix "CD2 07 - Artist - Title" 3 =
    ("Artist - Title", { disc := some 2, track := some 7, side := none, passes := 1 }) := by
  decide

example : ( clean_album_prefix "Disc 1: 03_ Artist - Title" 3).1 = "Artist - Title" := by decide

example : clean_album_prefix "A1 - Main Artist - Title" 3 =
    ("Main Artist - Title",
     { disc := none, track := some 1, side := some 'A', passes := 1 }) := by decide

example : ( clean_album_prefix "1x02 - Main Artist - Title" 3).1 = "Main Artist - Title" := by
  decide

example : ( clean_album_prefix "CD2 07 __ 01 - Main Artist - Title" 3).1 =
    "Main Artist - Title" := by decide

example : ( clean_album_prefix "CDs Are the Future - Title" 3).1 =
    "CDs Are the Future - Title" := by decide

example : (parse_brackets_nested "Says (Live at Funkhaus) [Visualizer]").1 = "Says" ∧
    ((parse_brackets_nested "Says (Live at Funkhaus) [Visualizer]").2.map (·.type)) =
      ["live", "noise"] := by decide

example : (parse_brackets_nested "Opal (Bicep Rework)").1 = "Opal" ∧
    ((parse_brackets_nested "Opal (Bicep Rework)").2.map
      fun h => (h.type, h.artist, h.version)) =
      [("remix", some "Bicep", some "Rework")] := by decide

example : ((parse_brackets_nested "Glue (Original Mix)").2.map
    fun h => (h.type, h.version)) = [("version", some "Original Mix")] := by decide

example : _classify "Bootleg by Barry" =
    { raw := "", text := "Bootleg by Barry", type := "remix",
      artist := some "Barry", version := some "Bootleg" } := by decide

example : _classify "feat. RHODES" =
    { raw := "", text := "feat. RHODES", type := "feat",
      artist := some "RHODES" } := by decide

example : _classify "key 8A 124bpm" =
    { raw := "", text := "key 8A 124bpm", type := "noise" } := by decide


end SSP
